import Mathlib

/-!
# Hilbish runtime core: event bus, job table, timers

A shallow embedding of `golibs/bait/bait.go`, `job.go` and `timer.go`.

Conventions used throughout.

* A Go pointer is a natural number, `0` being `nil`; two pointers are the same
  object exactly when the numbers are equal.
* A Go `panic` is a value of the result (`fault`), never an exception of Lean.
* A call that blocks forever (a mutex that is never released, a channel
  nobody reads) is a value of the result as well (`blocked`).
* Callbacks that come from outside the repository (listener bodies, the
  recoverer, the scripting runtime, the operating system) are parameters.
  They are functions of their arguments and do not reach back into the bus,
  the job table or the timers.
-/

namespace Hilbish

/-! ## Event bus (`golibs/bait/bait.go`) -/

namespace bait

/-- The `listenerType` constants `goListener` and `luaListener`. -/
inductive listenerType where
  | goListener
  | luaListener
  deriving DecidableEq, Repr

/-- Arguments handed to listeners (`interface{}` / `rt.Value`). The cases are
the ones `Emit` itself builds for the `"error"` event, plus an uninterpreted
rest. Marshalling to `rt.Value` keeps the value. -/
inductive Value where
  | str (s : String)
  | closure (addr : Nat)
  | other (n : Nat)
  deriving DecidableEq, Repr

/-- The struct `Listener`. `ptr` is the address of the object (listeners are
handled through `*Listener`). `caller` is the native handler: `none` is a nil
func, and calling the handler yields `some v` when it panics with `v`.
`luaCaller` is the address of the script closure, `0` for nil. -/
structure Listener where
  ptr : Nat
  caller : Option (List Value → Option String)
  luaCaller : Nat
  typ : listenerType
  once : Bool

/-- The struct `Bait`. `recoverer` is `none` for nil; a recoverer yields
`some v` when it panics itself. `handlers` gives the elements of the slice
stored under an event (a missing key and an empty slice behave alike in every
function below). `rtm` is `rt.Call1` on the main thread: the error a closure
returns for given arguments, `none` for a nil error. `nextPtr` is the address
the next `&Listener{...}` receives. -/
structure Bait where
  recoverer : Option (String → Nat → String → Option String)
  handlers : String → List Listener
  rtm : Nat → List Value → Option String
  nextPtr : Nat

/-- `New`: no handlers, no recoverer. -/
def New (rtm : Nat → List Value → Option String) : Bait :=
  { recoverer := none, handlers := fun _ => [], rtm := rtm, nextPtr := 1 }

/-- `SetRecoverer`. -/
def SetRecoverer (b : Bait) (recoverer : String → Nat → String → Option String) : Bait :=
  { b with recoverer := some recoverer }

/-- `addListener`: append to the event's slice. -/
def addListener (b : Bait) (event : String) (listener : Listener) : Bait :=
  { b with handlers := fun e => if e = event then b.handlers event ++ [listener] else b.handlers e }

/-- `removeListener`: `hs[idx] = hs[len(hs)-1]; hs = hs[:len(hs)-1]` on the
slice currently stored under `event`. Both index expressions are bounds
checked against the current length; a failed check is a runtime panic. -/
def removeListener (b : Bait) (event : String) (idx : Nat) : Except String Bait :=
  let hs := b.handlers event
  match hs[hs.length - 1]? with
  | none => .error "index out of range"
  | some last =>
    if idx < hs.length then
      .ok { b with handlers := fun e => if e = event then (hs.set idx last).dropLast else b.handlers e }
    else .error "index out of range"

/-- `On`: a fresh native listener, appended. -/
def On (b : Bait) (event : String) (handler : List Value → Option String) : Bait × Listener :=
  let listener : Listener :=
    { ptr := b.nextPtr, caller := some handler, luaCaller := 0, typ := .goListener, once := false }
  (addListener { b with nextPtr := b.nextPtr + 1 } event listener, listener)

/-- `OnLua`: a fresh script listener, appended. -/
def OnLua (b : Bait) (event : String) (handler : Nat) : Bait × Listener :=
  let listener : Listener :=
    { ptr := b.nextPtr, caller := none, luaCaller := handler, typ := .luaListener, once := false }
  (addListener { b with nextPtr := b.nextPtr + 1 } event listener, listener)

/-- `Once`: as `On`, with `once` set. -/
def Once (b : Bait) (event : String) (handler : List Value → Option String) : Bait × Listener :=
  let listener : Listener :=
    { ptr := b.nextPtr, caller := some handler, luaCaller := 0, typ := .goListener, once := true }
  (addListener { b with nextPtr := b.nextPtr + 1 } event listener, listener)

/-- `OnceLua`: as `OnLua`, with `once` set. -/
def OnceLua (b : Bait) (event : String) (handler : Nat) : Bait × Listener :=
  let listener : Listener :=
    { ptr := b.nextPtr, caller := none, luaCaller := handler, typ := .luaListener, once := true }
  (addListener { b with nextPtr := b.nextPtr + 1 } event listener, listener)

/-- What an emission does that can be seen from outside, in order. -/
inductive Ev where
  | call (event : String) (ptr : Nat) (args : List Value)
  | scriptError (event : String) (ptr : Nat) (msg : String)
  | emit (event : String) (args : List Value)
  | recovered (event : String) (ptr : Nat) (err : String)
  deriving DecidableEq, Repr

/-- Result of one `Emit` call: the bus afterwards, what happened, and the
panic that leaves `Emit`, if any. -/
structure EmitOut where
  bait : Bait
  trace : List Ev
  fault : Option String

/-- State in which the `for` loop of `Emit` is left: the bus, the trace, the
panic in flight (`none` after the last iteration and after `return`), the
number of `defer` statements executed, and the listener the variable `handle`
holds. -/
structure LoopOut where
  bait : Bait
  trace : List Ev
  panic : Option String
  defers : Nat
  handle : Nat

/-- `callRecoverer`: panics again with `err` when no recoverer is set,
otherwise calls it. The result is the panic in flight afterwards. -/
def callRecoverer (b : Bait) (event : String) (handler : Nat) (err : String) :
    Option String × List Ev :=
  match b.recoverer with
  | none => (some err, [])
  | some r => (r event handler err, [Ev.recovered event handler err])

/-- The deferred closures of `Emit`, run last registered first when the
function is left. Each calls `recover()`: with a panic in flight it hands the
panic to `callRecoverer`, without one it does nothing. The closure reads
`handle` when it runs; the range variable is one variable for the whole loop
(Go before 1.22), so that is the listener of the iteration in which the loop
was left. With one variable per iteration only the closures that run after a
recoverer has panicked itself would see another listener. -/
def runDefers (b : Bait) (event : String) (handle : Nat) :
    Nat → Option String → List Ev → Option String × List Ev
  | 0, p, tr => (p, tr)
  | d + 1, none, tr => runDefers b event handle d none tr
  | d + 1, some err, tr =>
    let r := callRecoverer b event handle err
    runDefers b event handle d r.1 (tr ++ r.2)

/-- How one pass through the body of the loop ends: the loop goes on with the
next index, the function is left (by `return` or by a panic), or the nested
call did not finish. -/
inductive Iter where
  | next (b : Bait) (handles : List Listener) (trace : List Ev)
  | leave (lo : LoopOut)
  | unfinished

/-- The body of the `for idx, handle := range handles` loop of `Emit` for one
`idx` and `handle`. `handles` is the slice header taken before the loop: its
elements are read from the array it shares with the slice stored in the bus,
so the write of `removeListener` shows in it. `nested` is the call
`b.Emit("error", ...)`; `none` from it means the call did not finish. -/
def emitBody (nested : Bait → List Value → Option EmitOut) (event : String) (args : List Value)
    (idx : Nat) (handle : Listener) (b : Bait) (handles : List Listener) (tr : List Ev) : Iter :=
  -- the `once` check and `removeListener` after a handler that returned
  let afterCall (tr1 : List Ev) : Iter :=
    if handle.once then
      match removeListener b event idx with
      | .error e => .leave ⟨b, tr1, some e, idx + 1, handle.ptr⟩
      | .ok b1 =>
        let moved := ((b.handlers event)[(b.handlers event).length - 1]?).getD handle
        .next b1 (handles.set idx moved) tr1
    else .next b handles tr1
  let tr0 := tr ++ [Ev.call event handle.ptr args]
  if handle.typ = .luaListener then
    match b.rtm handle.luaCaller args with
    | some msg =>
      let tr1 := tr0 ++ [Ev.scriptError event handle.ptr msg]
      if event ≠ "error" then
        let errArgs := [Value.str event, Value.closure handle.luaCaller, Value.str msg]
        match nested b errArgs with
        | none => .unfinished
        | some out =>
          .leave ⟨out.bait, tr1 ++ [Ev.emit "error" errArgs] ++ out.trace, out.fault,
            idx + 1, handle.ptr⟩
      else .leave ⟨b, tr1, some msg, idx + 1, handle.ptr⟩
    | none => afterCall tr0
  else
    match handle.caller with
    | none => .leave ⟨b, tr0, some "invalid memory address or nil pointer dereference",
        idx + 1, handle.ptr⟩
    | some f =>
      match f args with
      | some v => .leave ⟨b, tr0, some v, idx + 1, handle.ptr⟩
      | none => afterCall tr0

/-- The loop `for idx, handle := range handles` of `Emit`, for the indices
`idx, idx+1, ...` (`todo` of them; the length of `handles` is fixed when the
loop starts). -/
def emitLoop (nested : Bait → List Value → Option EmitOut) (event : String) (args : List Value) :
    Nat → Nat → Bait → List Listener → List Ev → Option LoopOut
  | 0, idx, b, _, tr => some ⟨b, tr, none, idx, 0⟩
  | todo + 1, idx, b, handles, tr =>
    match handles[idx]? with
    | none => some ⟨b, tr, none, idx, 0⟩
    | some handle =>
      match emitBody nested event args idx handle b handles tr with
      | .next b1 handles1 tr1 => emitLoop nested event args todo (idx + 1) b1 handles1 tr1
      | .leave lo => some lo
      | .unfinished => none

/-- `Emit`. The first argument bounds the depth of nested `Emit` calls that
are followed; `none` means the bound was reached. -/
def Emit : Nat → Bait → String → List Value → Option EmitOut
  | 0, _, _, _ => none
  | fuel + 1, b, event, args =>
    match b.handlers event with
    | [] => some ⟨b, [], none⟩
    | h :: hs =>
      match emitLoop (fun b1 a => Emit fuel b1 "error" a) event args (h :: hs).length 0 b (h :: hs) [] with
      | none => none
      | some lo =>
        let r := runDefers lo.bait event lo.handle lo.defers lo.panic lo.trace
        some ⟨lo.bait, r.2, r.1⟩

/-- The loop shared by `Off` and `OffLua`:
`for i, handle := range handles { if <sel handle> { b.removeListener(event, i) } }`.
There is no `break`, and `i` indexes the slice header taken before the loop.
An error is the panic of `removeListener` leaving the loop, with the bus as it
is at that moment. -/
def offLoop (sel : Listener → Bool) (event : String) :
    Nat → Nat → Bait → List Listener → Except (String × Bait) Bait
  | 0, _, b, _ => .ok b
  | todo + 1, i, b, handles =>
    match handles[i]? with
    | none => .ok b
    | some handle =>
      if sel handle then
        match removeListener b event i with
        | .error e => .error (e, b)
        | .ok b1 =>
          let moved := ((b.handlers event)[(b.handlers event).length - 1]?).getD handle
          offLoop sel event todo (i + 1) b1 (handles.set i moved)
      else offLoop sel event todo (i + 1) b handles

/-- `Off`: compares listener pointers. An error is a panic leaving `Off`, with
the bus it leaves behind. -/
def Off (b : Bait) (event : String) (listener : Nat) : Except (String × Bait) Bait :=
  offLoop (fun handle => handle.ptr == listener) event (b.handlers event).length 0 b
    (b.handlers event)

/-- `OffLua`: compares closure pointers. An error is a panic leaving `OffLua`,
with the bus it leaves behind. -/
def OffLua (b : Bait) (event : String) (handler : Nat) : Except (String × Bait) Bait :=
  offLoop (fun handle => handle.luaCaller == handler) event (b.handlers event).length 0 b
    (b.handlers event)

/-- Addresses of the listeners invoked, in order. -/
def invoked (tr : List Ev) : List Nat :=
  tr.filterMap fun
    | Ev.call _ p _ => some p
    | _ => none

/-- Script errors raised by listeners, in order. -/
def scriptErrors (tr : List Ev) : List (String × Nat × String) :=
  tr.filterMap fun
    | Ev.scriptError e p m => some (e, p, m)
    | _ => none

/-- Calls of the recoverer, in order. -/
def recoveries (tr : List Ev) : List (String × Nat × String) :=
  tr.filterMap fun
    | Ev.recovered e p v => some (e, p, v)
    | _ => none

/-- Nested `Emit` calls made, in order. -/
def emissions (tr : List Ev) : List (String × List Value) :=
  tr.filterMap fun
    | Ev.emit e a => some (e, a)
    | _ => none

/-- Addresses of the listeners registered for an event. -/
def registered (b : Bait) (event : String) : List Nat :=
  (b.handlers event).map (fun l => l.ptr)

/-- The ways the loop of `Emit` can have been left, told from what it added
to the trace: only listener calls; listener calls and then a script error of
an "error" listener, raised as a panic; or listener calls, a script error and
the nested emission of "error", whose outcome is passed on. -/
def LoopEnd (nested : Bait → List Value → Option EmitOut) (event : String) (b : Bait)
    (tr : List Ev) (lo : LoopOut) : Prop :=
  ∃ calls, emissions calls = [] ∧ scriptErrors calls = [] ∧ recoveries calls = [] ∧
    ((lo.trace = tr ++ calls ∧ lo.bait.recoverer = b.recoverer) ∨
     (∃ p m, event = "error" ∧ lo.trace = tr ++ calls ++ [Ev.scriptError "error" p m] ∧
        lo.panic = some m ∧ lo.handle = p ∧ 0 < lo.defers ∧ lo.bait.recoverer = b.recoverer) ∨
     (∃ p m b1 a o, event ≠ "error" ∧ b1.recoverer = b.recoverer ∧ nested b1 a = some o ∧
        lo.trace = tr ++ calls ++ [Ev.scriptError event p m, Ev.emit "error" a] ++ o.trace ∧
        lo.panic = o.fault ∧ lo.bait = o.bait))

/-- What an `Emit("error", ...)` call on the bus `b` must satisfy: the
recoverer is kept, no nested emission is made, and a script error of an
"error" listener leaves `Emit` as a panic when no recoverer is set, and
otherwise goes to the recoverer once (given that the recoverer returns). -/
def ErrorEmitSpec (b : Bait) (out : EmitOut) : Prop :=
  out.bait.recoverer = b.recoverer ∧ emissions out.trace = [] ∧
  ∀ p m, ("error", p, m) ∈ scriptErrors out.trace →
    (b.recoverer = none → out.fault = some m ∧ recoveries out.trace = []) ∧
    (∀ r, b.recoverer = some r → r "error" p m = none →
      recoveries out.trace = [("error", p, m)] ∧ out.fault = none)

/-- Whether calling the listener with `args` fails: a script listener whose
closure returns an error, a native listener that panics (a nil handler
panics when called). -/
def failsOn (rtm : Nat → List Value → Option String) (args : List Value) (l : Listener) : Bool :=
  if l.typ = .luaListener then (rtm l.luaCaller args).isSome
  else
    match l.caller with
    | none => true
    | some f => (f args).isSome

/-- What `Off` and `OffLua` are to do to the bus for the listeners picked by
`sel`: the event's list keeps exactly the listeners not picked (in some
order), the lists of the other events and the rest of the bus stay, and a
bus without a picked listener is not changed at all. -/
def Unsubscribed (sel : Listener → Bool) (event : String) (b b1 : Bait) : Prop :=
  (b1.handlers event).Perm ((b.handlers event).filter (fun l => !sel l)) ∧
  (∀ e, e ≠ event → b1.handlers e = b.handlers e) ∧
  b1.recoverer = b.recoverer ∧ b1.rtm = b.rtm ∧ b1.nextPtr = b.nextPtr ∧
  ((∀ l ∈ b.handlers event, sel l = false) → b1 = b)

/-- The listeners of every list are distinct objects, allocated before
`nextPtr`. -/
def Distinct (b : Bait) : Prop :=
  ∀ e, ((b.handlers e).map (fun l => l.ptr)).Nodup ∧ ∀ l ∈ b.handlers e, l.ptr < b.nextPtr

/-- The buses the functions of the package lead to from `New`. -/
inductive Reachable : Bait → Prop where
  | new (rtm : Nat → List Value → Option String) : Reachable (New rtm)
  | setRecoverer (b : Bait) (r : String → Nat → String → Option String) :
      Reachable b → Reachable (SetRecoverer b r)
  | viaOn (b : Bait) (event : String) (handler : List Value → Option String) :
      Reachable b → Reachable (On b event handler).1
  | viaOnLua (b : Bait) (event : String) (handler : Nat) :
      Reachable b → Reachable (OnLua b event handler).1
  | viaOnce (b : Bait) (event : String) (handler : List Value → Option String) :
      Reachable b → Reachable (Once b event handler).1
  | viaOnceLua (b : Bait) (event : String) (handler : Nat) :
      Reachable b → Reachable (OnceLua b event handler).1
  | viaEmit (b : Bait) (fuel : Nat) (event : String) (args : List Value) (out : EmitOut) :
      Reachable b → Emit fuel b event args = some out → Reachable out.bait
  | viaOff (b : Bait) (event : String) (listener : Nat) (b1 : Bait) :
      Reachable b → Off b event listener = .ok b1 → Reachable b1
  | viaOffLua (b : Bait) (event : String) (handler : Nat) (b1 : Bait) :
      Reachable b → OffLua b event handler = .ok b1 → Reachable b1
  | viaOffPanic (b : Bait) (event : String) (listener : Nat) (e : String) (b1 : Bait) :
      Reachable b → Off b event listener = .error (e, b1) → Reachable b1
  | viaOffLuaPanic (b : Bait) (event : String) (handler : Nat) (e : String) (b1 : Bait) :
      Reachable b → OffLua b event handler = .error (e, b1) → Reachable b1

end bait

/-! ## Job control (`job.go`) -/

/-- How a call ends: it returns a value, it panics, or it never returns. -/
inductive Res (α : Type) where
  | ok (val : α)
  | fault (v : String)
  | blocked
  deriving DecidableEq, Repr

/-- The state of a `sync.RWMutex` seen by one goroutine at a time: the number
of read locks held and whether the write lock is held. -/
structure RWMutex where
  readers : Nat
  writer : Bool
  deriving DecidableEq, Repr

namespace RWMutex

/-- `Lock` waits until no reader and no writer holds the mutex. Nobody else
releases a lock while the caller waits, so a held lock means waiting forever. -/
def Lock (m : RWMutex) : Res RWMutex :=
  if m.readers = 0 ∧ m.writer = false then .ok { m with writer := true } else .blocked

/-- `Unlock`: a fatal error when the write lock is not held. -/
def Unlock (m : RWMutex) : Res RWMutex :=
  if m.writer then .ok { m with writer := false } else .fault "sync: Unlock of unlocked RWMutex"

/-- `RLock` waits until no writer holds the mutex. -/
def RLock (m : RWMutex) : Res RWMutex :=
  if m.writer then .blocked else .ok { m with readers := m.readers + 1 }

/-- `RUnlock`: a fatal error when no read lock is held. -/
def RUnlock (m : RWMutex) : Res RWMutex :=
  if m.readers = 0 then .fault "sync: RUnlock of unlocked RWMutex"
  else .ok { m with readers := m.readers - 1 }

end RWMutex

/-- An `io.Writer` as far as `job.go` builds them. -/
inductive Writer where
  | osStdout
  | osStderr
  | buffer (name : String)
  | multi (a b : Writer)
  deriving DecidableEq, Repr

/-- The fields of `exec.Cmd` that `job.go` reads or writes. `Process` is the
pid of the attached `os.Process`, `none` for nil. -/
structure Cmd where
  Path : String
  Args : List String
  Stdout : Option Writer
  Stderr : Option Writer
  SysProcAttr : Option Nat
  Process : Option Int
  deriving DecidableEq, Repr

/-- The struct `job`. The buffers `stdout` and `stderr` are their contents;
`ud` is the address of the userdata wrapper; `handle` is `none` for nil. -/
structure job where
  cmderr : Writer
  cmdout : Writer
  ud : Nat
  stderr : String
  stdout : String
  handle : Option Cmd
  path : String
  cmd : String
  args : List String
  exitCode : Int
  pid : Int
  id : Int
  once : Bool
  running : Bool
  deriving DecidableEq, Repr

/-- An event published on the global bus `hooks`, with the id of the job whose
handle is the argument. The jobs only publish; what listeners do with the
event is the business of the bus. -/
abbrev Published := List (String × Int)

namespace job

/-- `setHandle`. -/
def setHandle (j : job) (handle : Cmd) : job :=
  let j1 := { j with handle := some handle, args := handle.Args, path := handle.Path }
  let j2 := match handle.Stdout with
    | some w => { j1 with cmdout := w }
    | none => j1
  match handle.Stderr with
  | some w => { j2 with cmderr := w }
  | none => j2

/-- `getProc`: the process of the handle, nil when there is no handle. -/
def getProc (j : job) : Option Int :=
  match j.handle with
  | some handle => handle.Process
  | none => none

/-- `start`. `launch` is `(*exec.Cmd).Start` on the operating system: the pid
of the new process, or the launch error, in which case the `Process` field
stays as it was. `bgProcAttr` is the address of the platform's attribute
object. The value returned is the launch error. -/
def start (launch : Cmd → Except String Int) (bgProcAttr : Nat) (j : job) (hooks : Published) :
    Res (Option String × job × Published) :=
  let j1 := if j.handle.isNone || j.once then
      j.setHandle { Path := j.path, Args := j.args, Stdout := none, Stderr := none,
                    SysProcAttr := none, Process := none }
    else j
  match j1.handle with
  | none => .fault "invalid memory address or nil pointer dereference"
  | some h =>
    let h1 : Cmd := { h with SysProcAttr := some bgProcAttr }
    let j2 := { j1 with stdout := "", stderr := "" }
    let h2 : Cmd := { h1 with Stdout := some (.multi j2.cmdout (.buffer "stdout")),
                              Stderr := some (.multi j2.cmderr (.buffer "stderr")) }
    let j3 := if !j2.once then { j2 with once := true } else j2
    let started : Option String × Cmd := match launch h2 with
      | .ok pid => (none, { h2 with Process := some pid })
      | .error e => (some e, h2)
    let j4 := { j3 with handle := some started.2 }
    match j4.getProc with
    | none => .fault "invalid memory address or nil pointer dereference"
    | some pid =>
      let j5 := { j4 with pid := pid, running := true }
      .ok (started.1, j5, hooks ++ [("job.start", j5.id)])

/-- `finish`. -/
def finish (j : job) (hooks : Published) : job × Published :=
  ({ j with running := false }, hooks ++ [("job.done", j.id)])

end job

/-- `luaStartJob` once its argument has been found to be the job `j`.
`handleExecErr` turns the launch error into the exit code; it is defined
outside these sources. -/
def luaStartJob (launch : Cmd → Except String Int) (bgProcAttr : Nat)
    (handleExecErr : Option String → Nat) (j : job) (hooks : Published) : Res (job × Published) :=
  if !j.running then
    match j.start launch bgProcAttr hooks with
    | .ok (err, j1, hooks1) =>
      let exit := handleExecErr err
      .ok (job.finish { j1 with exitCode := (exit : Int) } hooks1)
    | .fault v => .fault v
    | .blocked => .blocked
  else .ok (j, hooks)

/-- The value a result of `int` arithmetic has on a 64-bit platform: beyond
`2^63 - 1` it wraps around to `-2^63`. -/
def wrapInt (x : Int) : Int :=
  (x + 9223372036854775808) % 18446744073709551616 - 9223372036854775808

/-- `jobUserData`: the address of the wrapper allocated for the job with the
given id. The allocation never gives nil, and jobs with different ids get
different wrappers. -/
def jobUserData (id : Int) : Nat :=
  if 0 < id then id.toNat else (9223372036854775809 - id).toNat

/-- The struct `jobHandler`. `jobs` is the map from id to job, `none` for a
missing key. -/
structure jobHandler where
  jobs : Int → Option job
  mu : RWMutex
  latestID : Int
  foreground : Bool

/-- `newJobHandler`. -/
def newJobHandler : jobHandler :=
  { jobs := fun _ => none, mu := { readers := 0, writer := false }, latestID := 0,
    foreground := false }

namespace jobHandler

/-- `add`: under the write lock, count up (`j.latestID++` on an `int`), build
the job, store it, publish `job.add`. The deferred `Unlock` runs on return. -/
def add (j : jobHandler) (cmd : String) (args : List String) (path : String) (hooks : Published) :
    Res (job × jobHandler × Published) :=
  match j.mu.Lock with
  | .blocked => .blocked
  | .fault v => .fault v
  | .ok mu1 =>
    let latestID := wrapInt (j.latestID + 1)
    let jb : job :=
      { cmd := cmd, running := false, id := latestID, args := args, path := path,
        cmdout := .osStdout, cmderr := .osStderr, stdout := "", stderr := "",
        ud := jobUserData latestID, handle := none, exitCode := 0, pid := 0, once := false }
    let jobs := fun k => if k = latestID then some jb else j.jobs k
    match mu1.Unlock with
    | .blocked => .blocked
    | .fault v => .fault v
    | .ok mu2 =>
      .ok (jb, { j with jobs := jobs, mu := mu2, latestID := latestID },
        hooks ++ [("job.add", latestID)])

/-- `getLatest`: under the read lock, with the deferred `RUnlock`. -/
def getLatest (j : jobHandler) : Res (Option job × jobHandler) :=
  match j.mu.RLock with
  | .blocked => .blocked
  | .fault v => .fault v
  | .ok mu1 =>
    match mu1.RUnlock with
    | .blocked => .blocked
    | .fault v => .fault v
    | .ok mu2 => .ok (j.jobs j.latestID, { j with mu := mu2 })

/-- `disown`. The value returned is the error. On the path that returns
"job doesnt exist" the source has no `RUnlock`. -/
def disown (j : jobHandler) (id : Int) : Res (Option String × jobHandler) :=
  match j.mu.RLock with
  | .blocked => .blocked
  | .fault v => .fault v
  | .ok mu1 =>
    if (j.jobs id).isNone then .ok (some "job doesnt exist", { j with mu := mu1 })
    else
      match mu1.RUnlock with
      | .blocked => .blocked
      | .fault v => .fault v
      | .ok mu2 =>
        match mu2.Lock with
        | .blocked => .blocked
        | .fault v => .fault v
        | .ok mu3 =>
          let jobs := fun k => if k = id then none else j.jobs k
          match mu3.Unlock with
          | .blocked => .blocked
          | .fault v => .fault v
          | .ok mu4 => .ok (none, { j with jobs := jobs, mu := mu4 })

/-- `luaGetJob` once its argument has been read as the integer `jobID`: the
job found, under the read lock with the deferred `RUnlock`. -/
def luaGetJob (j : jobHandler) (jobID : Int) : Res (Option job × jobHandler) :=
  match j.mu.RLock with
  | .blocked => .blocked
  | .fault v => .fault v
  | .ok mu1 =>
    match mu1.RUnlock with
    | .blocked => .blocked
    | .fault v => .fault v
    | .ok mu2 => .ok (j.jobs jobID, { j with mu := mu2 })

end jobHandler

/-- A call on the job table. -/
inductive JobCall where
  | add (cmd : String) (args : List String) (path : String)
  | disown (id : Int)
  deriving DecidableEq, Repr

/-- What one call on the job table gave back: the id of the job added, or the
error of `disown`. -/
inductive JobReply where
  | added (id : Int)
  | disowned (err : Option String)
  deriving DecidableEq, Repr

/-- Make the calls one after the other. The replies of the calls that
returned are collected; the run ends at the first call that does not return,
whose ending is the second component (`none` when every call returned). -/
def runJobCalls : jobHandler → Published → List JobCall →
    List JobReply × Option (Res Unit) × jobHandler
  | j, _, [] => ([], none, j)
  | j, hooks, JobCall.add cmd args path :: rest =>
    match j.add cmd args path hooks with
    | .ok (jb, j1, hooks1) =>
      let r := runJobCalls j1 hooks1 rest
      (JobReply.added jb.id :: r.1, r.2.1, r.2.2)
    | .fault v => ([], some (.fault v), j)
    | .blocked => ([], some .blocked, j)
  | j, hooks, JobCall.disown id :: rest =>
    match j.disown id with
    | .ok (err, j1) =>
      let r := runJobCalls j1 hooks rest
      (JobReply.disowned err :: r.1, r.2.1, r.2.2)
    | .fault v => ([], some (.fault v), j)
    | .blocked => ([], some .blocked, j)

/-- The ids of the jobs the `add` calls of a run returned, in order. -/
def addedIds (replies : List JobReply) : List Int :=
  replies.filterMap fun
    | JobReply.added id => some id
    | _ => none

/-! ## Timers (`timer.go`) -/

/-- The `timerType` constants. -/
inductive timerType where
  | timerInterval
  | timerTimeout
  deriving DecidableEq, Repr

/-- The struct `timer`, seen by one goroutine at a time.

* `ticker` tells whether `t.ticker` is a ticker that has not been stopped.
* `channel` is the number of signals waiting in `t.channel` and `chanCap`
  the capacity the channel was made with (the `make` is outside these
  sources, so the capacity is left open).
* `parked` is the number of goroutines started by `start` for this timer that
  sit in the `select` of their loop.
* `fn` is the address of the closure `fun`; `th` is the handler shared by
  the timers and lives in `Timers`. -/
structure timer where
  ticker : Bool
  ud : Nat
  channel : Nat
  chanCap : Nat
  parked : Nat
  fn : Nat
  dur : Int
  id : Int
  typ : timerType
  running : Bool
  deriving DecidableEq, Repr

/-- The fields of `timerHandler` that `timer.go` uses: the count `running`
and the counter of the wait group `wg`. The struct is declared outside these
sources. -/
structure timerHandler where
  running : Int
  wg : Int
  deriving DecidableEq, Repr

/-- One timer handler and the timers that point to it. A `*timer` is an index
into `timers`. -/
structure Timers where
  th : timerHandler
  timers : List timer
  deriving DecidableEq, Repr

/-- How a call of `start` or `stop` ends: with the error returned (`none` for
nil), with a panic, or never. -/
inductive Outcome where
  | returned (err : Option String)
  | fault (v : String)
  | blocked
  deriving DecidableEq, Repr

namespace timer

/-- The send `t.channel <- struct{}{}`. A goroutine parked in the `select`
takes the signal at once, runs `t.ticker.Stop()` and returns; otherwise the
signal goes into the buffer when there is room; otherwise the sender waits
for a receiver that is not there (`none`). -/
def send (t : timer) : Option timer :=
  if 0 < t.parked then some { t with parked := t.parked - 1, ticker := false }
  else if t.channel < t.chanCap then some { t with channel := t.channel + 1 }
  else none

/-- `start` on the timer at index `t`. `wg.Add` panics when the counter
becomes negative and `time.NewTicker` panics on a duration that is not
positive; `go func()` leaves a new goroutine in its `select`. -/
def start (w : Timers) (t : Nat) : Outcome × Timers :=
  match w.timers[t]? with
  | none => (.fault "invalid memory address or nil pointer dereference", w)
  | some tm =>
    if tm.running then (.returned (some "timer is already running"), w)
    else
      let tm1 : timer := { tm with running := true }
      let th1 : timerHandler := { w.th with running := w.th.running + 1 }
      if th1.wg + 1 < 0 then
        (.fault "sync: negative WaitGroup counter", { th := th1, timers := w.timers.set t tm1 })
      else
        let th2 : timerHandler := { th1 with wg := th1.wg + 1 }
        if tm1.dur ≤ 0 then
          (.fault "non-positive interval for NewTicker", { th := th2, timers := w.timers.set t tm1 })
        else
          let tm2 : timer := { tm1 with ticker := true, parked := tm1.parked + 1 }
          (.returned none, { th := th2, timers := w.timers.set t tm2 })

/-- `stop` on the timer at index `t`. `wg.Done` panics when the counter
becomes negative. -/
def stop (w : Timers) (t : Nat) : Outcome × Timers :=
  match w.timers[t]? with
  | none => (.fault "invalid memory address or nil pointer dereference", w)
  | some tm =>
    if !tm.running then (.returned (some "timer not running"), w)
    else
      match tm.send with
      | none => (.blocked, w)
      | some tm1 =>
        let tm2 : timer := { tm1 with running := false }
        let th1 : timerHandler := { w.th with running := w.th.running - 1 }
        if th1.wg - 1 < 0 then
          (.fault "sync: negative WaitGroup counter", { th := th1, timers := w.timers.set t tm2 })
        else
          (.returned none, { th := { th1 with wg := th1.wg - 1 }, timers := w.timers.set t tm2 })

end timer

/-- A call on a timer. -/
inductive TimerCall where
  | start (t : Nat)
  | stop (t : Nat)
  deriving DecidableEq, Repr

/-- One call. -/
def timerCall (w : Timers) : TimerCall → Outcome × Timers
  | .start t => timer.start w t
  | .stop t => timer.stop w t

/-- The number of timers whose `running` flag is set. -/
def runningTimers (w : Timers) : Nat :=
  (w.timers.filter (fun t => t.running)).length

/-- A timer as it is before its first `start`: not running, no goroutine, no
signal in the channel. -/
def timer.fresh (t : timer) : Prop :=
  t.running = false ∧ t.parked = 0 ∧ t.channel = 0

/-- The timers `ts` under a handler that has counted nothing yet. -/
def Timers.init (ts : List timer) : Timers :=
  { th := { running := 0, wg := 0 }, timers := ts }

/-- The states a sequence of `start` and `stop` calls leads to from `w0`,
each call made after the one before has returned, by a caller other than the
timers' own goroutines (which sit in their `select` meanwhile). -/
inductive TimersReach (w0 : Timers) : Timers → Prop where
  | init : TimersReach w0 w0
  | call (w : Timers) (c : TimerCall) (err : Option String) (w1 : Timers) :
      TimersReach w0 w → timerCall w c = (Outcome.returned err, w1) → TimersReach w0 w1

/-- What holds between the calls: the handler's count and the wait group's
counter equal the number of running timers, and a running timer has a
goroutine in its `select`. -/
def TimersInv (w : Timers) : Prop :=
  w.th.running = runningTimers w ∧ w.th.wg = runningTimers w ∧
    ∀ t ∈ w.timers, t.running = true → 0 < t.parked

/-- The goroutine that `start` launches for one timer, with what surrounds it.

* `w` is the handler and the timers.
* `tick` tells whether a tick waits in `t.ticker.C` (the channel of a ticker
  holds at most one).
* `fired` counts the calls of the callback `t.fun`.
* `stuck` counts the goroutines that wait forever in a send inside `stop`.
* `crashed` is the panic that ended the program, if any. -/
structure TimerRun where
  w : Timers
  tick : Bool
  fired : Nat
  stuck : Nat
  crashed : Option String
  deriving DecidableEq, Repr

/-- What can happen next to the goroutine of a timer: the ticker sends a tick,
the `select` takes `case <-t.ticker.C`, or the `select` takes
`case <-t.channel`. When a tick and a signal both wait, the `select` may take
either. -/
inductive TimerEvent where
  | tick
  | fire
  | cancel
  deriving DecidableEq, Repr

/-- One event for the timer at index `t`; `none` when the event cannot happen
in this state. `cb k` is the error the callback returns when it is called for
the `k`-th time (`none` for nil).

* `tick`: a ticker that has not been stopped puts a tick into its channel.
* `fire`: a goroutine in the `select` takes the tick and runs the body of
  `case <-t.ticker.C`: the callback, `t.stop()` when it returned an error,
  `t.stop()` when the timer is a timeout; then it is back in the `select`.
  A `stop` that never returns leaves the goroutine stuck, a panic ends the
  program.
* `cancel`: a goroutine in the `select` takes a signal from `t.channel`, runs
  `t.ticker.Stop()` and returns. -/
def timerStep (cb : Nat → Option String) (t : Nat) (r : TimerRun) : TimerEvent → Option TimerRun
  | .tick =>
    match r.w.timers[t]? with
    | none => none
    | some tm => if tm.ticker ∧ r.crashed = none then some { r with tick := true } else none
  | .cancel =>
    match r.w.timers[t]? with
    | none => none
    | some tm =>
      if 0 < tm.parked ∧ 0 < tm.channel ∧ r.crashed = none then
        let tm1 : timer :=
          { tm with channel := tm.channel - 1, ticker := false, parked := tm.parked - 1 }
        some { r with w := { r.w with timers := r.w.timers.set t tm1 } }
      else none
  | .fire =>
    match r.w.timers[t]? with
    | none => none
    | some tm =>
      if 0 < tm.parked ∧ r.tick = true ∧ r.crashed = none then
        -- the goroutine leaves the `select` and calls the callback
        let tm1 : timer := { tm with parked := tm.parked - 1 }
        let w1 : Timers := { r.w with timers := r.w.timers.set t tm1 }
        let r1 : TimerRun := { r with w := w1, tick := false, fired := r.fired + 1 }
        -- `if err != nil { ...; t.stop() }`
        let s1 : Outcome × Timers :=
          match cb r.fired with
          | some _ => timer.stop w1 t
          | none => (.returned none, w1)
        match s1.1 with
        | .blocked => some { r1 with w := s1.2, stuck := r.stuck + 1 }
        | .fault v => some { r1 with w := s1.2, crashed := some v }
        | .returned _ =>
          -- `if t.typ == timerTimeout { t.stop() }`
          let s2 : Outcome × Timers :=
            if tm.typ = .timerTimeout then timer.stop s1.2 t else (.returned none, s1.2)
          match s2.1 with
          | .blocked => some { r1 with w := s2.2, stuck := r.stuck + 1 }
          | .fault v => some { r1 with w := s2.2, crashed := some v }
          | .returned _ =>
            -- back to the `select`
            match s2.2.timers[t]? with
            | none => none
            | some tm2 =>
              let tm3 : timer := { tm2 with parked := tm2.parked + 1 }
              some { r1 with w := { s2.2 with timers := s2.2.timers.set t tm3 } }
      else none

/-- The events one after the other; `none` when one of them cannot happen. -/
def runTimer (cb : Nat → Option String) (t : Nat) : TimerRun → List TimerEvent → Option TimerRun
  | r, [] => some r
  | r, e :: es =>
    match timerStep cb t r e with
    | none => none
    | some r1 => runTimer cb t r1 es

/-- The run that begins when `start` has returned for the only timer `tm`: no
tick yet, no call of the callback. -/
def startedAlone (tm : timer) : TimerRun :=
  { w := (timer.start (Timers.init [tm]) 0).2, tick := false, fired := 0, stuck := 0,
    crashed := none }

/-! ## Concrete runs -/

namespace bait

/-- A native handler that returns. -/
def returns : List Value → Option String := fun _ => none

/-- A native handler that panics with "boom". -/
def booms : List Value → Option String := fun _ => some "boom"

/-- A recoverer that returns. -/
def absorbs : String → Nat → String → Option String := fun _ _ _ => none

/-- A runtime in which no closure raises an error. -/
def quiet : Nat → List Value → Option String := fun _ _ => none

/-- A runtime in which the closure at address 10 raises "bad" and every other
closure returns. -/
def raisesAt10 : Nat → List Value → Option String :=
  fun c _ => if c = 10 then some "bad" else none

/-- A fresh bus after `Once`, `Once`, `Once`, `On` for the event "E", all
handlers returning. -/
def threeOnceThenOn : Bait :=
  (On (Once (Once (Once (New quiet) "E" returns).1 "E" returns).1 "E" returns).1 "E" returns).1

/-- A bus with a recoverer after `Once`, `Once` for the event "E", both
handlers returning. -/
def twoOnce : Bait :=
  (Once (Once (SetRecoverer (New quiet) absorbs) "E" returns).1 "E" returns).1

/-- A bus with a recoverer after `On` with a panicking handler and `On` with a
returning handler for the event "E". -/
def panicThenOn : Bait :=
  (On (On (SetRecoverer (New quiet) absorbs) "E" booms).1 "E" returns).1

/-- A bus with a recoverer after `OnLua` with a closure that raises and `On`
with a returning handler for the event "E". -/
def raiseThenOn : Bait :=
  (On (OnLua (SetRecoverer (New raisesAt10) absorbs) "E" 10).1 "E" returns).1

/-- A fresh bus after `OnLua` for "E" with a closure that raises, and `Once`,
`Once` for "error" with handlers that return. -/
def raiseWithTwoOnceOnError : Bait :=
  (Once (Once (OnLua (New raisesAt10) "E" 10).1 "error" returns).1 "error" returns).1

/-- A fresh bus after `OnLua`, `OnLua` for "E" with the same closure. -/
def sameClosureTwice : Bait :=
  (OnLua (OnLua (New quiet) "E" 10).1 "E" 10).1

/-- A fresh bus after `OnLua`, `OnLua` with the same closure and `On`, all
for "E". -/
def sameClosureTwiceThenOn : Bait :=
  (On (OnLua (OnLua (New quiet) "E" 10).1 "E" 10).1 "E" returns).1

/-- A bus with a recoverer after `On` with a returning handler and `OnLua`
with a closure that raises, both for "error". -/
def raiseOnError : Bait :=
  (OnLua (On (SetRecoverer (New raisesAt10) absorbs) "error" returns).1 "error" 10).1

/-- A recoverer that panics again, with the value it was handed. -/
def rethrows : String → Nat → String → Option String := fun _ _ v => some v

/-- The bus `raiseOnError` with the recoverer `rethrows` in place of one that
returns. -/
def raiseOnErrorRethrown : Bait :=
  (OnLua (On (SetRecoverer (New raisesAt10) rethrows) "error" returns).1 "error" 10).1

/-- A fresh bus after `OnLua` with closure 10, `OnLua` with closure 11 and
`On`, all for "E". -/
def twoClosuresThenOn : Bait :=
  (On (OnLua (OnLua (New quiet) "E" 10).1 "E" 11).1 "E" returns).1

end bait

/-- An operating system on which no process can be launched. -/
def launchFails : Cmd → Except String Int :=
  fun _ => .error "fork/exec /nonexistent: no such file or directory"

/-- An exit code convention: 127 for a launch error, 0 for none. -/
def exitOf : Option String → Nat :=
  fun err => if err.isSome then 127 else 0

/-- The job `add "nope" ["nope"] "/nonexistent"` stores in a new table. -/
def nopeJob : job :=
  { cmd := "nope", running := false, id := 1, args := ["nope"], path := "/nonexistent",
    cmdout := Writer.osStdout, cmderr := Writer.osStderr, stdout := "", stderr := "",
    ud := 1, handle := none, exitCode := 0, pid := 0, once := false }

/-- A timer of the given kind and duration before its first `start`, with a
channel of capacity 1. -/
def newTimer (id : Int) (typ : timerType) (dur : Int) : timer :=
  { ticker := false, ud := id.toNat, channel := 0, chanCap := 1, parked := 0, fn := 0,
    dur := dur, id := id, typ := typ, running := false }

/-- An interval timer and a timeout timer before their first `start`. -/
def twoTimers : List timer :=
  [newTimer 1 .timerInterval 100, newTimer 2 .timerTimeout 50]

/-- The state after `start` on the first of `twoTimers`. -/
def afterStart : Timers :=
  (timerCall (Timers.init twoTimers) (.start 0)).2

/-- The state after `start` on both of `twoTimers`. -/
def afterStartStart : Timers :=
  (timerCall afterStart (.start 1)).2

/-- The state after `start` on both of `twoTimers` and `stop` on the first. -/
def afterStartStartStop : Timers :=
  (timerCall afterStartStart (.stop 0)).2

/-- A timeout timer of 50 before its first `start`, with a channel of
capacity 1. -/
def oneShot : timer :=
  newTimer 1 .timerTimeout 50

/-- The same timer with a channel without buffer. -/
def oneShotUnbuffered : timer :=
  { newTimer 1 .timerTimeout 50 with chanCap := 0 }

/-- A callback that returns no error. -/
def quietCallback : Nat → Option String := fun _ => none

/-- A callback that returns an error each time. -/
def failingCallback : Nat → Option String := fun _ => some "attempt to call a nil value"

/-! ## Event bus: emission -/

namespace bait

/-- C1. After `Once`, `Once`, `Once`, `On` for "E" on a fresh bus the listeners
1, 2, 3, 4 are registered. `Emit("E")` invokes 1, 2 and 3; the removal of 3
indexes the shortened slice out of range, the panic leaves `Emit` (no
recoverer is set) and listener 4 is never invoked. -/
theorem C1_emit_skips_listener_after_removals :
    registered threeOnceThenOn "E" = [1, 2, 3, 4] ∧
    (Emit 2 threeOnceThenOn "E" [Value.other 7]).map
        (fun o => (invoked o.trace, o.fault, registered o.bait "E")) =
      some ([1, 2, 3], some "index out of range", [4, 3]) := by
  constructor <;> decide

/-- C2. After `Once`, `Once` for "E" (listeners 1 and 2, a recoverer set) the
first `Emit("E")` invokes both, fails to remove listener 2 (the panic goes to
the recoverer) and leaves it registered; the second `Emit("E")` invokes
listener 2 again. -/
theorem C2_once_listener_runs_twice :
    (Once (SetRecoverer (New quiet) absorbs) "E" returns).1.nextPtr = 2 ∧
    registered twoOnce "E" = [1, 2] ∧
    (Emit 2 twoOnce "E" []).map
        (fun o => (invoked o.trace, recoveries o.trace, o.fault, registered o.bait "E")) =
      some ([1, 2], [("E", 2, "index out of range")], none, [2]) ∧
    ((Emit 2 twoOnce "E" []).bind (fun o => Emit 2 o.bait "E" [])).map
        (fun o => (invoked o.trace, o.fault, registered o.bait "E")) =
      some ([2], none, []) := by
  refine ⟨by decide, by decide, by decide, by decide⟩

/-- C3, counterexample. With a recoverer set and listeners 1 (panics) and 2
(returns) for "E", `Emit("E")` invokes listener 1, hands the panic to the
recoverer and returns: listener 2 is not invoked. The same holds when
listener 1 is a script listener that raises: "error" is emitted and
`Emit("E")` returns without invoking listener 2. -/
theorem C3_later_listener_not_invoked :
    registered panicThenOn "E" = [1, 2] ∧
    (Emit 2 panicThenOn "E" [Value.other 7]).map
        (fun o => (invoked o.trace, recoveries o.trace, o.fault)) =
      some ([1], [("E", 1, "boom")], none) ∧
    registered raiseThenOn "E" = [1, 2] ∧
    (Emit 2 raiseThenOn "E" [Value.other 7]).map
        (fun o => (invoked o.trace, emissions o.trace, o.fault)) =
      some ([1], [("error", [Value.str "E", Value.closure 10, Value.str "bad"])], none) := by
  refine ⟨by decide, by decide, by decide, by decide⟩

/-- C4. On a fresh bus with a raising script listener for "E" and two `Once`
listeners for "error" whose handlers return, `Emit("E")` emits "error" once
with ("E", closure, "bad"), both "error" listeners are invoked, the removal
of the second one panics and the panic leaves `Emit("E")`. -/
theorem C4_error_emission_faults_in_caller :
    (Emit 2 raiseWithTwoOnceOnError "E" [Value.other 7]).map (fun o => (o.trace, o.fault)) =
      some ([Ev.call "E" 1 [Value.other 7], Ev.scriptError "E" 1 "bad",
             Ev.emit "error" [Value.str "E", Value.closure 10, Value.str "bad"],
             Ev.call "error" 2 [Value.str "E", Value.closure 10, Value.str "bad"],
             Ev.call "error" 3 [Value.str "E", Value.closure 10, Value.str "bad"]],
            some "index out of range") := by
  decide

/-! ### The escalation of a failing "error" listener -/

theorem removeListener_recoverer (b b1 : Bait) (event : String) (idx : Nat)
    (h : removeListener b event idx = .ok b1) : b1.recoverer = b.recoverer := by
  unfold removeListener at h
  dsimp only at h
  split at h
  · cases h
  · split at h
    · cases h; rfl
    · cases h

theorem runDefers_none (b : Bait) (event : String) (handle d : Nat) (tr : List Ev) :
    runDefers b event handle d none tr = (none, tr) := by
  induction d with
  | zero => rfl
  | succ d ih => simpa [runDefers] using ih

theorem runDefers_no_recoverer (b : Bait) (event : String) (handle d : Nat) (err : String)
    (tr : List Ev) (hb : b.recoverer = none) :
    runDefers b event handle d (some err) tr = (some err, tr) := by
  induction d with
  | zero => rfl
  | succ d ih => simpa [runDefers, callRecoverer, hb] using ih

theorem runDefers_recoverer_returns (b : Bait) (event : String) (handle d : Nat) (err : String)
    (tr : List Ev) (r : String → Nat → String → Option String) (hb : b.recoverer = some r)
    (hr : r event handle err = none) :
    runDefers b event handle (d + 1) (some err) tr = (none, tr ++ [Ev.recovered event handle err]) := by
  simp [runDefers, callRecoverer, hb, hr, runDefers_none]

theorem runDefers_trace (b : Bait) (event : String) (handle : Nat) :
    ∀ (d : Nat) (p : Option String) (tr : List Ev),
      ∃ recs, (runDefers b event handle d p tr).2 = tr ++ recs ∧
        emissions recs = [] ∧ scriptErrors recs = [] ∧ invoked recs = [] := by
  intro d
  induction d with
  | zero => intro p tr; exact ⟨[], by simp [runDefers], rfl, rfl, rfl⟩
  | succ d ih =>
    intro p tr
    cases p with
    | none => simpa [runDefers] using ih none tr
    | some err =>
      cases hb : b.recoverer with
      | none =>
        obtain ⟨recs, h1, h2⟩ := ih (some err) tr
        exact ⟨recs, by simpa [runDefers, callRecoverer, hb] using h1, h2⟩
      | some r =>
        obtain ⟨recs, h1, h2, h3, h4⟩ := ih (r event handle err) (tr ++ [Ev.recovered event handle err])
        refine ⟨Ev.recovered event handle err :: recs, ?_, ?_, ?_, ?_⟩
        · simpa [runDefers, callRecoverer, hb] using h1
        · simpa [emissions] using h2
        · simpa [scriptErrors] using h3
        · simpa [invoked] using h4

theorem LoopEnd_call (nested : Bait → List Value → Option EmitOut) (event : String) (b b1 : Bait)
    (tr : List Ev) (lo : LoopOut) (e : String) (p : Nat) (a : List Value)
    (hb : b1.recoverer = b.recoverer)
    (h : LoopEnd nested event b1 (tr ++ [Ev.call e p a]) lo) : LoopEnd nested event b tr lo := by
  obtain ⟨calls, h1, h2, h3, h⟩ := h
  refine ⟨Ev.call e p a :: calls, by simpa [emissions] using h1, by simpa [scriptErrors] using h2,
    by simpa [recoveries] using h3, ?_⟩
  rcases h with ⟨ht, hr⟩ | ⟨p1, m, he, ht, hp, hh, hd, hr⟩ | ⟨p1, m, b2, a1, o, he, hr, hn, ht, hp, hbt⟩
  · exact Or.inl ⟨by simpa using ht, hr.trans hb⟩
  · exact Or.inr (Or.inl ⟨p1, m, he, by simpa using ht, hp, hh, hd, hr.trans hb⟩)
  · exact Or.inr (Or.inr ⟨p1, m, b2, a1, o, he, hr.trans hb, hn, by simpa using ht, hp, hbt⟩)

theorem emitBody_next (nested : Bait → List Value → Option EmitOut) (event : String)
    (args : List Value) (idx : Nat) (handle : Listener) (b : Bait) (handles : List Listener)
    (tr : List Ev) (b1 : Bait) (handles1 : List Listener) (tr1 : List Ev)
    (h : emitBody nested event args idx handle b handles tr = .next b1 handles1 tr1) :
    b1.recoverer = b.recoverer ∧ tr1 = tr ++ [Ev.call event handle.ptr args] := by
  unfold emitBody at h
  dsimp only at h
  split at h
  · split at h
    · split at h
      · split at h <;> cases h
      · cases h
    · split at h
      · split at h
        · cases h
        · rename_i hrm
          cases h
          exact ⟨removeListener_recoverer _ _ _ _ hrm, rfl⟩
      · cases h; exact ⟨rfl, rfl⟩
  · split at h
    · cases h
    · split at h
      · cases h
      · split at h
        · split at h
          · cases h
          · rename_i hrm
            cases h
            exact ⟨removeListener_recoverer _ _ _ _ hrm, rfl⟩
        · cases h; exact ⟨rfl, rfl⟩

theorem emitBody_unfinished (nested : Bait → List Value → Option EmitOut) (event : String)
    (args : List Value) (idx : Nat) (handle : Listener) (b : Bait) (handles : List Listener)
    (tr : List Ev)
    (h : emitBody nested event args idx handle b handles tr = .unfinished) :
    event ≠ "error" ∧ ∃ a, nested b a = none := by
  unfold emitBody at h
  dsimp only at h
  split at h
  · split at h
    · split at h
      · rename_i he
        split at h
        · rename_i hn
          exact ⟨he, _, hn⟩
        · cases h
      · cases h
    · split at h
      · split at h <;> cases h
      · cases h
  · split at h
    · cases h
    · split at h
      · cases h
      · split at h
        · split at h <;> cases h
        · cases h

theorem emitBody_leave (nested : Bait → List Value → Option EmitOut) (event : String)
    (args : List Value) (idx : Nat) (handle : Listener) (b : Bait) (handles : List Listener)
    (tr : List Ev) (lo : LoopOut)
    (h : emitBody nested event args idx handle b handles tr = .leave lo) :
    LoopEnd nested event b tr lo := by
  refine ⟨[Ev.call event handle.ptr args], rfl, rfl, rfl, ?_⟩
  unfold emitBody at h
  dsimp only at h
  split at h
  · split at h
    · rename_i msg hmsg
      split at h
      · rename_i he
        split at h
        · cases h
        · rename_i o hn
          cases h
          exact Or.inr (Or.inr ⟨handle.ptr, msg, b, _, o, he, rfl, hn, by simp, rfl, rfl⟩)
      · rename_i he
        have he : event = "error" := by simpa using he
        cases h
        subst he
        exact Or.inr (Or.inl ⟨handle.ptr, msg, rfl, by simp, rfl, rfl, by simp, rfl⟩)
    · split at h
      · split at h
        · cases h; exact Or.inl ⟨rfl, rfl⟩
        · cases h
      · cases h
  · split at h
    · cases h; exact Or.inl ⟨rfl, rfl⟩
    · split at h
      · cases h; exact Or.inl ⟨rfl, rfl⟩
      · split at h
        · split at h
          · cases h; exact Or.inl ⟨rfl, rfl⟩
          · cases h
        · cases h

theorem emitLoop_ends (nested : Bait → List Value → Option EmitOut) (event : String)
    (args : List Value) :
    ∀ (todo idx : Nat) (b : Bait) (handles : List Listener) (tr : List Ev),
      (∃ lo, emitLoop nested event args todo idx b handles tr = some lo ∧
          LoopEnd nested event b tr lo) ∨
      (emitLoop nested event args todo idx b handles tr = none ∧ event ≠ "error" ∧
          ∃ b1 a, nested b1 a = none) := by
  intro todo
  induction todo with
  | zero =>
    intro idx b handles tr
    exact Or.inl ⟨_, rfl, [], rfl, rfl, rfl, Or.inl ⟨by simp, rfl⟩⟩
  | succ todo ih =>
    intro idx b handles tr
    unfold emitLoop
    cases hh : handles[idx]? with
    | none => exact Or.inl ⟨_, rfl, [], rfl, rfl, rfl, Or.inl ⟨by simp, rfl⟩⟩
    | some handle =>
      dsimp only
      cases hbody : emitBody nested event args idx handle b handles tr with
      | next b1 handles1 tr1 =>
        dsimp only
        obtain ⟨hb, htr⟩ := emitBody_next _ _ _ _ _ _ _ _ _ _ _ hbody
        subst htr
        rcases ih (idx + 1) b1 handles1 _ with ⟨lo, h1, h2⟩ | ⟨h1, h2⟩
        · exact Or.inl ⟨lo, h1, LoopEnd_call _ _ _ _ _ _ _ _ _ hb h2⟩
        · exact Or.inr ⟨h1, h2⟩
      | leave lo =>
        exact Or.inl ⟨lo, rfl, emitBody_leave _ _ _ _ _ _ _ _ _ hbody⟩
      | unfinished =>
        obtain ⟨he, a, hn⟩ := emitBody_unfinished _ _ _ _ _ _ _ _ hbody
        exact Or.inr ⟨rfl, he, b, a, hn⟩

theorem mem_scriptErrors (tr : List Ev) (e : String) (p : Nat) (m : String) :
    (e, p, m) ∈ scriptErrors tr ↔ Ev.scriptError e p m ∈ tr := by
  unfold scriptErrors
  rw [List.mem_filterMap]
  constructor
  · rintro ⟨x, hx, h⟩
    cases x <;> simp at h
    obtain ⟨rfl, rfl, rfl⟩ := h
    exact hx
  · intro h
    exact ⟨_, h, rfl⟩

theorem emitBody_error_indep (n1 n2 : Bait → List Value → Option EmitOut) (args : List Value)
    (idx : Nat) (handle : Listener) (b : Bait) (handles : List Listener) (tr : List Ev) :
    emitBody n1 "error" args idx handle b handles tr =
      emitBody n2 "error" args idx handle b handles tr := by
  simp [emitBody]

theorem emitLoop_error_indep (n1 n2 : Bait → List Value → Option EmitOut) (args : List Value) :
    ∀ (todo idx : Nat) (b : Bait) (handles : List Listener) (tr : List Ev),
      emitLoop n1 "error" args todo idx b handles tr =
        emitLoop n2 "error" args todo idx b handles tr := by
  intro todo
  induction todo with
  | zero => intro idx b handles tr; rfl
  | succ todo ih =>
    intro idx b handles tr
    unfold emitLoop
    cases handles[idx]? with
    | none => rfl
    | some handle =>
      dsimp only
      rw [emitBody_error_indep n1 n2]
      cases emitBody n2 "error" args idx handle b handles tr with
      | next b1 handles1 tr1 => exact ih _ _ _ _
      | leave lo => rfl
      | unfinished => rfl

theorem Emit_error_fuel (fuel : Nat) (b : Bait) (args : List Value) :
    Emit (fuel + 1) b "error" args = Emit 1 b "error" args := by
  unfold Emit
  cases b.handlers "error" with
  | nil => rfl
  | cons h hs =>
    dsimp only
    rw [emitLoop_error_indep _ (fun b1 a => Emit 0 b1 "error" a)]

theorem Emit_fuel (fuel : Nat) (b : Bait) (event : String) (args : List Value) :
    Emit (fuel + 2) b event args = Emit 2 b event args := by
  unfold Emit
  cases b.handlers event with
  | nil => rfl
  | cons h hs =>
    dsimp only
    have : (fun b1 a => Emit (fuel + 1) b1 "error" a) = (fun b1 a => Emit 1 b1 "error" a) := by
      funext b1 a
      exact Emit_error_fuel fuel b1 a
    rw [this]

theorem emissions_append (a b : List Ev) : emissions (a ++ b) = emissions a ++ emissions b := by
  simp [emissions, List.filterMap_append]

theorem scriptErrors_append (a b : List Ev) :
    scriptErrors (a ++ b) = scriptErrors a ++ scriptErrors b := by
  simp [scriptErrors, List.filterMap_append]

theorem recoveries_append (a b : List Ev) :
    recoveries (a ++ b) = recoveries a ++ recoveries b := by
  simp [recoveries, List.filterMap_append]

theorem emissions_nil : emissions [] = [] := rfl

theorem scriptErrors_nil : scriptErrors [] = [] := rfl

theorem recoveries_nil : recoveries [] = [] := rfl

theorem emissions_call (e : String) (p : Nat) (a : List Value) (tr : List Ev) :
    emissions (Ev.call e p a :: tr) = emissions tr := rfl

theorem emissions_scriptError (e : String) (p : Nat) (m : String) (tr : List Ev) :
    emissions (Ev.scriptError e p m :: tr) = emissions tr := rfl

theorem emissions_emit (e : String) (a : List Value) (tr : List Ev) :
    emissions (Ev.emit e a :: tr) = (e, a) :: emissions tr := rfl

theorem emissions_recovered (e : String) (p : Nat) (m : String) (tr : List Ev) :
    emissions (Ev.recovered e p m :: tr) = emissions tr := rfl

theorem recoveries_scriptError (e : String) (p : Nat) (m : String) (tr : List Ev) :
    recoveries (Ev.scriptError e p m :: tr) = recoveries tr := rfl

theorem recoveries_emit (e : String) (a : List Value) (tr : List Ev) :
    recoveries (Ev.emit e a :: tr) = recoveries tr := rfl

theorem recoveries_recovered (e : String) (p : Nat) (m : String) (tr : List Ev) :
    recoveries (Ev.recovered e p m :: tr) = (e, p, m) :: recoveries tr := rfl

theorem scriptErrors_scriptError (e : String) (p : Nat) (m : String) (tr : List Ev) :
    scriptErrors (Ev.scriptError e p m :: tr) = (e, p, m) :: scriptErrors tr := rfl

theorem scriptErrors_emit (e : String) (a : List Value) (tr : List Ev) :
    scriptErrors (Ev.emit e a :: tr) = scriptErrors tr := rfl

theorem Emit_error_spec (fuel : Nat) (b : Bait) (args : List Value) :
    ∃ out, Emit (fuel + 1) b "error" args = some out ∧ ErrorEmitSpec b out := by
  unfold Emit
  cases b.handlers "error" with
  | nil => exact ⟨_, rfl, rfl, rfl, by simp [scriptErrors]⟩
  | cons h hs =>
    dsimp only
    rcases emitLoop_ends (fun b1 a => Emit fuel b1 "error" a) "error" args (h :: hs).length 0 b
      (h :: hs) [] with ⟨lo, hlo, calls, hc1, hc2, hc3, hend⟩ | ⟨_, hne, _⟩
    · rw [hlo]
      refine ⟨_, rfl, ?_⟩
      obtain ⟨recs, hrecs, hr1, hr2, hr3⟩ :=
        runDefers_trace lo.bait "error" lo.handle lo.defers lo.panic lo.trace
      rcases hend with ⟨ht, hr⟩ | ⟨p, m, -, ht, hp, hh, hd, hr⟩ | ⟨_, _, _, _, _, hne, _⟩
      · refine ⟨hr, ?_, ?_⟩
        · show emissions (runDefers lo.bait "error" lo.handle lo.defers lo.panic lo.trace).2 = []
          rw [hrecs, ht]
          simp only [emissions_append, hc1, hr1, emissions_nil, emissions_scriptError, List.append_nil, List.nil_append]
        · intro p m hpm
          exfalso
          change ("error", p, m) ∈
            scriptErrors (runDefers lo.bait "error" lo.handle lo.defers lo.panic lo.trace).2 at hpm
          rw [hrecs, ht] at hpm
          simp [scriptErrors_append, hc2, hr2, scriptErrors_nil] at hpm
      · refine ⟨hr, ?_, ?_⟩
        · show emissions (runDefers lo.bait "error" lo.handle lo.defers lo.panic lo.trace).2 = []
          rw [hrecs, ht]
          simp only [emissions_append, hc1, hr1, emissions_nil, emissions_scriptError, List.append_nil, List.nil_append]
        · intro p1 m1 hpm
          have hpm1 : p1 = p ∧ m1 = m := by
            change ("error", p1, m1) ∈
              scriptErrors (runDefers lo.bait "error" lo.handle lo.defers lo.panic lo.trace).2
              at hpm
            rw [hrecs, ht] at hpm
            simpa [scriptErrors_append, hc2, hr2, scriptErrors_nil, scriptErrors_scriptError] using hpm
          obtain ⟨rfl, rfl⟩ := hpm1
          obtain ⟨d, hd1⟩ : ∃ d, lo.defers = d + 1 := ⟨lo.defers - 1, by omega⟩
          constructor
          · intro hnone
            have hrun := runDefers_no_recoverer lo.bait "error" lo.handle lo.defers m1 lo.trace
              (hr.trans hnone)
            show (runDefers lo.bait "error" lo.handle lo.defers lo.panic lo.trace).1 = some m1 ∧
              recoveries (runDefers lo.bait "error" lo.handle lo.defers lo.panic lo.trace).2 = []
            rw [hp, hrun, ht]
            simp [recoveries_append, hc3, recoveries_nil, recoveries_scriptError, recoveries_recovered]
          · intro r hsome hret
            have hrun := runDefers_recoverer_returns lo.bait "error" p1 d m1 lo.trace r
              (hr.trans hsome) hret
            show recoveries (runDefers lo.bait "error" lo.handle lo.defers lo.panic lo.trace).2 =
                [("error", p1, m1)] ∧
              (runDefers lo.bait "error" lo.handle lo.defers lo.panic lo.trace).1 = none
            rw [hp, hh, hd1, hrun, ht]
            simp [recoveries_append, hc3, recoveries_nil, recoveries_scriptError, recoveries_recovered]
      · exact absurd rfl hne
    · exact absurd rfl hne

theorem Emit_escalates (b : Bait) (event : String) (args : List Value) :
    ∃ out, (∀ fuel, 2 ≤ fuel → Emit fuel b event args = some out) ∧
      (emissions out.trace).length ≤ 1 ∧
      (event = "error" → emissions out.trace = []) ∧
      ∀ p m, Ev.scriptError "error" p m ∈ out.trace →
        (b.recoverer = none → out.fault = some m ∧ recoveries out.trace = []) ∧
        (∀ r, b.recoverer = some r → r "error" p m = none →
          recoveries out.trace = [("error", p, m)] ∧ out.fault = none) := by
  have hfuel : ∀ out, Emit 2 b event args = some out →
      ∀ fuel, 2 ≤ fuel → Emit fuel b event args = some out := by
    intro out h fuel hf
    obtain ⟨k, rfl⟩ : ∃ k, fuel = k + 2 := ⟨fuel - 2, by omega⟩
    rw [Emit_fuel, h]
  by_cases he : event = "error"
  · subst he
    obtain ⟨out, hout, -, hem, hspec⟩ := Emit_error_spec 1 b args
    refine ⟨out, hfuel out hout, by simp [hem], fun _ => hem, ?_⟩
    intro p m hpm
    exact hspec p m ((mem_scriptErrors _ _ _ _).2 hpm)
  · have hstep : Emit 2 b event args =
        match b.handlers event with
        | [] => some ⟨b, [], none⟩
        | h :: hs =>
          match emitLoop (fun b1 a => Emit 1 b1 "error" a) event args (h :: hs).length 0 b
              (h :: hs) [] with
          | none => none
          | some lo =>
            let r := runDefers lo.bait event lo.handle lo.defers lo.panic lo.trace
            some ⟨lo.bait, r.2, r.1⟩ := by
      rw [Emit]
    cases hhs : b.handlers event with
    | nil =>
      rw [hhs] at hstep
      exact ⟨_, hfuel _ hstep, by simp [emissions], fun _ => rfl, by simp⟩
    | cons h hs =>
      rw [hhs] at hstep
      dsimp only at hstep
      rcases emitLoop_ends (fun b1 a => Emit 1 b1 "error" a) event args (h :: hs).length 0 b
        (h :: hs) [] with ⟨lo, hlo, calls, hc1, hc2, hc3, hend⟩ | ⟨_, _, b1, a, hn⟩
      · rw [hlo] at hstep
        dsimp only at hstep
        refine ⟨_, hfuel _ hstep, ?_⟩
        obtain ⟨recs, hrecs, hr1, hr2, hr3⟩ :=
          runDefers_trace lo.bait event lo.handle lo.defers lo.panic lo.trace
        rcases hend with ⟨ht, hr⟩ | ⟨_, _, he1, _⟩ |
          ⟨p0, m0, b1, a, o, -, hb1, hn, ht, hp, hbt⟩
        · have hem : emissions (runDefers lo.bait event lo.handle lo.defers lo.panic lo.trace).2
              = [] := by
            rw [hrecs, ht]
            simp only [emissions_append, hc1, hr1, emissions_nil, List.append_nil]
          refine ⟨by simp [hem], fun _ => hem, ?_⟩
          intro p m hpm
          exfalso
          have hpm := (mem_scriptErrors _ _ _ _).2 hpm
          change ("error", p, m) ∈
            scriptErrors (runDefers lo.bait event lo.handle lo.defers lo.panic lo.trace).2 at hpm
          rw [hrecs, ht] at hpm
          simp [scriptErrors_append, hc2, hr2, scriptErrors_nil] at hpm
        · exact absurd he1 he
        · obtain ⟨o1, ho1, hspec⟩ := Emit_error_spec 0 b1 a
          have ho : o1 = o := by
            have hn1 : Emit 1 b1 "error" a = some o := hn
            rw [hn1] at ho1
            exact (Option.some.inj ho1).symm
          subst ho
          obtain ⟨hrec, hem, hspec⟩ := hspec
          have htrace : (runDefers lo.bait event lo.handle lo.defers lo.panic lo.trace).2 =
              calls ++ [Ev.scriptError event p0 m0, Ev.emit "error" a] ++ o1.trace ++ recs := by
            rw [hrecs, ht]
            simp
          refine ⟨?_, fun h => absurd h he, ?_⟩
          · show (emissions
              (runDefers lo.bait event lo.handle lo.defers lo.panic lo.trace).2).length ≤ 1
            rw [htrace]
            simp [emissions_append, hc1, hr1, hem, emissions_scriptError, emissions_emit,
              emissions_nil]
          · intro p m hpm
            have hpm := (mem_scriptErrors _ _ _ _).2 hpm
            change ("error", p, m) ∈
              scriptErrors (runDefers lo.bait event lo.handle lo.defers lo.panic lo.trace).2
              at hpm
            rw [htrace] at hpm
            have hpm1 : ("error", p, m) ∈ scriptErrors o1.trace := by
              simp only [scriptErrors_append, hc2, hr2, scriptErrors_scriptError,
                scriptErrors_emit, scriptErrors_nil, List.append_nil, List.nil_append,
                List.mem_append, List.mem_cons, List.mem_singleton, Prod.mk.injEq,
                List.not_mem_nil, or_false] at hpm
              rcases hpm with ⟨h1, -⟩ | h1
              · exact absurd h1.symm he
              · exact h1
            obtain ⟨hA, hB⟩ := hspec p m hpm1
            have hbr : lo.bait.recoverer = b.recoverer := by
              rw [hbt, hrec, hb1]
            constructor
            · intro hnone
              obtain ⟨hf, hrc⟩ := hA (hb1.trans hnone)
              have hrun := runDefers_no_recoverer lo.bait event lo.handle lo.defers m lo.trace
                (hbr.trans hnone)
              show (runDefers lo.bait event lo.handle lo.defers lo.panic lo.trace).1 = some m ∧
                recoveries (runDefers lo.bait event lo.handle lo.defers lo.panic lo.trace).2 = []
              rw [hp, hf, hrun, ht]
              simp [recoveries_append, hc3, hrc, recoveries_scriptError, recoveries_emit,
                recoveries_nil]
            · intro r hsome hret
              obtain ⟨hrc, hf⟩ := hB r (hb1.trans hsome) hret
              have hrun := runDefers_none lo.bait event lo.handle lo.defers lo.trace
              show recoveries (runDefers lo.bait event lo.handle lo.defers lo.panic lo.trace).2 =
                  [("error", p, m)] ∧
                (runDefers lo.bait event lo.handle lo.defers lo.panic lo.trace).1 = none
              rw [hp, hf, hrun, ht]
              simp [recoveries_append, hc3, hrc, recoveries_scriptError, recoveries_emit,
                recoveries_nil]
      · obtain ⟨o1, ho1, -⟩ := Emit_error_spec 0 b1 a
        have hn1 : Emit 1 b1 "error" a = none := hn
        rw [hn1] at ho1
        cases ho1

theorem scriptErrors_call (e : String) (p : Nat) (a : List Value) (tr : List Ev) :
    scriptErrors (Ev.call e p a :: tr) = scriptErrors tr := rfl

theorem removeListener_keeps (b b1 : Bait) (event : String) (idx : Nat)
    (h : removeListener b event idx = .ok b1) :
    b1.rtm = b.rtm ∧ (∀ e, e ≠ event → b1.handlers e = b.handlers e) ∧
      (∀ x ∈ b1.handlers event, x ∈ b.handlers event) ∧
      ∃ last, (b.handlers event)[(b.handlers event).length - 1]? = some last := by
  unfold removeListener at h
  dsimp only at h
  split at h
  · cases h
  · rename_i last hlast
    split at h
    · cases h
      refine ⟨rfl, ?_, ?_, last, hlast⟩
      · intro e he
        simp [he]
      · intro x hx
        simp only [if_true] at hx
        rcases List.mem_or_eq_of_mem_set (List.mem_of_mem_dropLast hx) with hx | rfl
        · exact hx
        · exact List.getElem?_mem hlast
    · cases h

theorem emitBody_next_keeps (nested : Bait → List Value → Option EmitOut) (event : String)
    (args : List Value) (idx : Nat) (handle : Listener) (b : Bait) (handles : List Listener)
    (tr : List Ev) (b1 : Bait) (handles1 : List Listener) (tr1 : List Ev)
    (h : emitBody nested event args idx handle b handles tr = .next b1 handles1 tr1) :
    b1.rtm = b.rtm ∧ (∀ e, e ≠ event → b1.handlers e = b.handlers e) ∧
      (∀ x ∈ b1.handlers event, x ∈ b.handlers event) ∧
      (∀ x ∈ handles1, x ∈ handles ∨ x ∈ b.handlers event) := by
  have key : ∀ b2, removeListener b event idx = .ok b2 →
      b2.rtm = b.rtm ∧ (∀ e, e ≠ event → b2.handlers e = b.handlers e) ∧
      (∀ x ∈ b2.handlers event, x ∈ b.handlers event) ∧
      (∀ x ∈ handles.set idx
          (((b.handlers event)[(b.handlers event).length - 1]?).getD handle),
        x ∈ handles ∨ x ∈ b.handlers event) := by
    intro b2 hrm
    obtain ⟨h1, h2, h3, last, hlast⟩ := removeListener_keeps _ _ _ _ hrm
    refine ⟨h1, h2, h3, ?_⟩
    intro x hx
    rcases List.mem_or_eq_of_mem_set hx with hx | rfl
    · exact Or.inl hx
    · rw [hlast]
      exact Or.inr (List.getElem?_mem hlast)
  have same : b.rtm = b.rtm ∧ (∀ e, e ≠ event → b.handlers e = b.handlers e) ∧
      (∀ x ∈ b.handlers event, x ∈ b.handlers event) ∧
      (∀ x ∈ handles, x ∈ handles ∨ x ∈ b.handlers event) :=
    ⟨rfl, fun _ _ => rfl, fun _ hx => hx, fun _ hx => Or.inl hx⟩
  unfold emitBody at h
  dsimp only at h
  split at h
  · split at h
    · split at h
      · split at h <;> cases h
      · cases h
    · split at h
      · split at h
        · cases h
        · rename_i hrm
          cases h
          exact key _ hrm
      · cases h; exact same
  · split at h
    · cases h
    · split at h
      · cases h
      · split at h
        · split at h
          · cases h
          · rename_i hrm
            cases h
            exact key _ hrm
        · cases h; exact same

theorem emitBody_leave_origin (nested : Bait → List Value → Option EmitOut) (event : String)
    (args : List Value) (idx : Nat) (handle : Listener) (b : Bait) (handles : List Listener)
    (tr : List Ev) (lo : LoopOut)
    (h : emitBody nested event args idx handle b handles tr = .leave lo) :
    ∀ e p m, (e, p, m) ∈ scriptErrors lo.trace →
      (e, p, m) ∈ scriptErrors tr ∨
      (e = event ∧ p = handle.ptr ∧ handle.typ = .luaListener ∧
        b.rtm handle.luaCaller args = some m) ∨
      (event ≠ "error" ∧ ∃ a o, nested b a = some o ∧ (e, p, m) ∈ scriptErrors o.trace) := by
  intro e p m hpm
  have plain : (e, p, m) ∈ scriptErrors (tr ++ [Ev.call event handle.ptr args]) →
      (e, p, m) ∈ scriptErrors tr := by
    intro hx
    simpa [scriptErrors_append, scriptErrors_call, scriptErrors_nil] using hx
  unfold emitBody at h
  dsimp only at h
  split at h
  · rename_i htyp
    split at h
    · rename_i msg hmsg
      split at h
      · rename_i he
        split at h
        · cases h
        · rename_i o hn
          cases h
          simp only [scriptErrors_append, scriptErrors_call, scriptErrors_scriptError,
            scriptErrors_emit, scriptErrors_nil, List.append_nil, List.mem_append,
            List.mem_cons, List.mem_singleton, Prod.mk.injEq, List.not_mem_nil, or_false]
            at hpm
          rcases hpm with (hx | ⟨rfl, rfl, rfl⟩) | hx
          · exact Or.inl hx
          · exact Or.inr (Or.inl ⟨rfl, rfl, htyp, hmsg⟩)
          · exact Or.inr (Or.inr ⟨he, _, o, hn, hx⟩)
      · cases h
        simp only [scriptErrors_append, scriptErrors_call, scriptErrors_scriptError,
          scriptErrors_nil, List.append_nil, List.mem_append, List.mem_cons,
          List.mem_singleton, Prod.mk.injEq, List.not_mem_nil, or_false] at hpm
        rcases hpm with (hx | ⟨rfl, rfl, rfl⟩)
        · exact Or.inl hx
        · exact Or.inr (Or.inl ⟨rfl, rfl, htyp, hmsg⟩)
    · split at h
      · split at h
        · cases h; exact Or.inl (plain hpm)
        · cases h
      · cases h
  · split at h
    · cases h; exact Or.inl (plain hpm)
    · split at h
      · cases h; exact Or.inl (plain hpm)
      · split at h
        · split at h
          · cases h; exact Or.inl (plain hpm)
          · cases h
        · cases h

theorem emitLoop_origin (nested : Bait → List Value → Option EmitOut) (event : String)
    (args : List Value) (orig : List Listener) (rtm0 : Nat → List Value → Option String)
    (h0 : String → List Listener) :
    ∀ (todo idx : Nat) (b : Bait) (handles : List Listener) (tr : List Ev) (lo : LoopOut),
      emitLoop nested event args todo idx b handles tr = some lo →
      b.rtm = rtm0 → (∀ x ∈ handles, x ∈ orig) → (∀ x ∈ b.handlers event, x ∈ orig) →
      (∀ e, e ≠ event → b.handlers e = h0 e) →
      ∀ e p m, (e, p, m) ∈ scriptErrors lo.trace →
        (e, p, m) ∈ scriptErrors tr ∨
        (e = event ∧ ∃ l ∈ orig, l.ptr = p ∧ l.typ = .luaListener ∧
          rtm0 l.luaCaller args = some m) ∨
        (event ≠ "error" ∧ ∃ b1 a o, nested b1 a = some o ∧ b1.rtm = rtm0 ∧
          b1.handlers "error" = h0 "error" ∧ (e, p, m) ∈ scriptErrors o.trace) := by
  intro todo
  induction todo with
  | zero =>
    intro idx b handles tr lo h _ _ _ _ e p m hpm
    simp only [emitLoop, Option.some.injEq] at h
    subst h
    exact Or.inl hpm
  | succ todo ih =>
    intro idx b handles tr lo h hrtm hhs hbs hoth e p m hpm
    unfold emitLoop at h
    cases hh : handles[idx]? with
    | none =>
      rw [hh] at h
      simp only [Option.some.injEq] at h
      subst h
      exact Or.inl hpm
    | some handle =>
      rw [hh] at h
      dsimp only at h
      have hmem : handle ∈ orig := hhs _ (List.getElem?_mem hh)
      cases hbody : emitBody nested event args idx handle b handles tr with
      | next b1 handles1 tr1 =>
        rw [hbody] at h
        dsimp only at h
        obtain ⟨-, htr⟩ := emitBody_next _ _ _ _ _ _ _ _ _ _ _ hbody
        obtain ⟨k1, k2, k3, k4⟩ := emitBody_next_keeps _ _ _ _ _ _ _ _ _ _ _ hbody
        have := ih (idx + 1) b1 handles1 tr1 lo h (k1.trans hrtm)
          (fun x hx => (k4 x hx).elim (hhs x) (hbs x)) (fun x hx => hbs x (k3 x hx))
          (fun e he => (k2 e he).trans (hoth e he)) e p m hpm
        rcases this with hx | hx | hx
        · rw [htr] at hx
          left
          simpa [scriptErrors_append, scriptErrors_call, scriptErrors_nil] using hx
        · exact Or.inr (Or.inl hx)
        · exact Or.inr (Or.inr hx)
      | leave lo1 =>
        rw [hbody] at h
        simp only [Option.some.injEq] at h
        subst h
        rcases emitBody_leave_origin _ _ _ _ _ _ _ _ _ hbody e p m hpm with
          hx | ⟨rfl, rfl, h1, h2⟩ | ⟨he, a, o, hn, hx⟩
        · exact Or.inl hx
        · exact Or.inr (Or.inl ⟨rfl, handle, hmem, rfl, h1, hrtm ▸ h2⟩)
        · refine Or.inr (Or.inr ⟨he, b, a, o, hn, hrtm, ?_, hx⟩)
          exact hoth "error" (Ne.symm he)
      | unfinished =>
        rw [hbody] at h
        cases h

theorem Emit_error_origin (fuel : Nat) (b : Bait) (args : List Value) (out : EmitOut)
    (h : Emit (fuel + 1) b "error" args = some out) :
    ∀ e p m, (e, p, m) ∈ scriptErrors out.trace →
      e = "error" ∧ ∃ l ∈ b.handlers "error", l.ptr = p ∧ l.typ = .luaListener ∧
        b.rtm l.luaCaller args = some m := by
  intro e p m hpm
  unfold Emit at h
  cases hhs : b.handlers "error" with
  | nil =>
    rw [hhs] at h
    simp only [Option.some.injEq] at h
    subst h
    simp [scriptErrors] at hpm
  | cons x xs =>
    rw [hhs] at h
    dsimp only at h
    cases hlo : emitLoop (fun b1 a => Emit fuel b1 "error" a) "error" args (x :: xs).length 0 b
        (x :: xs) [] with
    | none => rw [hlo] at h; cases h
    | some lo =>
      rw [hlo] at h
      simp only [Option.some.injEq] at h
      subst h
      obtain ⟨recs, hrecs, -, hr2, -⟩ :=
        runDefers_trace lo.bait "error" lo.handle lo.defers lo.panic lo.trace
      change (e, p, m) ∈
        scriptErrors (runDefers lo.bait "error" lo.handle lo.defers lo.panic lo.trace).2 at hpm
      rw [hrecs, scriptErrors_append, hr2, List.append_nil] at hpm
      have := emitLoop_origin (fun b1 a => Emit fuel b1 "error" a) "error" args (x :: xs) b.rtm
        b.handlers (x :: xs).length 0 b (x :: xs) [] lo hlo rfl (fun _ hx => hx)
        (fun y hy => by rw [hhs] at hy; exact hy) (fun _ _ => rfl) e p m hpm
      rcases this with hx | ⟨he, l, hl, h1, h2, h3⟩ | ⟨he, _⟩
      · simp [scriptErrors] at hx
      · exact ⟨he, l, hl, h1, h2, h3⟩
      · exact absurd rfl he

theorem Emit_origin (fuel : Nat) (b : Bait) (event : String) (args : List Value) (out : EmitOut)
    (h : Emit (fuel + 2) b event args = some out) :
    ∀ p m, ("error", p, m) ∈ scriptErrors out.trace →
      ∃ l ∈ b.handlers "error", ∃ a, l.ptr = p ∧ l.typ = .luaListener ∧
        b.rtm l.luaCaller a = some m := by
  intro p m hpm
  by_cases he : event = "error"
  · subst he
    obtain ⟨-, l, hl, h1, h2, h3⟩ := Emit_error_origin _ b args out h "error" p m hpm
    exact ⟨l, hl, args, h1, h2, h3⟩
  · unfold Emit at h
    cases hhs : b.handlers event with
    | nil =>
      rw [hhs] at h
      simp only [Option.some.injEq] at h
      subst h
      simp [scriptErrors] at hpm
    | cons x xs =>
      rw [hhs] at h
      dsimp only at h
      cases hlo : emitLoop (fun b1 a => Emit (fuel + 1) b1 "error" a) event args
          (x :: xs).length 0 b (x :: xs) [] with
      | none => rw [hlo] at h; cases h
      | some lo =>
        rw [hlo] at h
        simp only [Option.some.injEq] at h
        subst h
        obtain ⟨recs, hrecs, -, hr2, -⟩ :=
          runDefers_trace lo.bait event lo.handle lo.defers lo.panic lo.trace
        change ("error", p, m) ∈
          scriptErrors (runDefers lo.bait event lo.handle lo.defers lo.panic lo.trace).2 at hpm
        rw [hrecs, scriptErrors_append, hr2, List.append_nil] at hpm
        have := emitLoop_origin (fun b1 a => Emit (fuel + 1) b1 "error" a) event args (x :: xs)
          b.rtm b.handlers (x :: xs).length 0 b (x :: xs) [] lo hlo rfl (fun _ hx => hx)
          (fun y hy => by rw [hhs] at hy; exact hy) (fun _ _ => rfl) "error" p m hpm
        rcases this with hx | ⟨he1, _⟩ | ⟨-, b1, a, o, hn, hrtm, hhand, hx⟩
        · simp [scriptErrors] at hx
        · exact absurd he1.symm he
        · obtain ⟨-, l, hl, h1, h2, h3⟩ := Emit_error_origin _ b1 a o hn "error" p m hx
          rw [hhand] at hl
          rw [hrtm] at h3
          exact ⟨l, hl, a, h1, h2, h3⟩

/-! ### A failing listener ends the emission -/

theorem emitBody_next_shape (nested : Bait → List Value → Option EmitOut) (event : String)
    (args : List Value) (idx : Nat) (handle : Listener) (b : Bait) (handles : List Listener)
    (tr : List Ev) (b1 : Bait) (handles1 : List Listener) (tr1 : List Ev)
    (h : emitBody nested event args idx handle b handles tr = .next b1 handles1 tr1) :
    failsOn b.rtm args handle = false ∧
      (∀ j, idx < j → handles1[j]? = handles[j]?) := by
  have hset : ∀ x : Listener, ∀ j, idx < j → (handles.set idx x)[j]? = handles[j]? := by
    intro x j hj
    exact List.getElem?_set_ne (by omega)
  unfold emitBody at h
  dsimp only at h
  split at h
  · rename_i htyp
    split at h
    · split at h
      · split at h <;> cases h
      · cases h
    · rename_i hrtm
      have hf : failsOn b.rtm args handle = false := by simp [failsOn, htyp, hrtm]
      split at h
      · split at h
        · cases h
        · cases h
          exact ⟨hf, hset _⟩
      · cases h; exact ⟨hf, fun _ _ => rfl⟩
  · rename_i htyp
    split at h
    · cases h
    · rename_i f hcall
      split at h
      · cases h
      · rename_i hret
        have hf : failsOn b.rtm args handle = false := by simp [failsOn, htyp, hcall, hret]
        split at h
        · split at h
          · cases h
          · cases h
            exact ⟨hf, hset _⟩
        · cases h; exact ⟨hf, fun _ _ => rfl⟩

theorem emitBody_leave_shape (nested : Bait → List Value → Option EmitOut) (event : String)
    (args : List Value) (idx : Nat) (handle : Listener) (b : Bait) (handles : List Listener)
    (tr : List Ev) (lo : LoopOut)
    (h : emitBody nested event args idx handle b handles tr = .leave lo) :
    lo.defers = idx + 1 ∧ lo.handle = handle.ptr ∧
    ∃ rest, lo.trace = tr ++ [Ev.call event handle.ptr args] ++ rest ∧
      ((rest = [] ∧ lo.bait = b ∧ (∃ v, lo.panic = some v) ∧
          (handle.typ = .luaListener → b.rtm handle.luaCaller args = none)) ∨
       (handle.typ = .luaListener ∧ ∃ m, b.rtm handle.luaCaller args = some m ∧
          event = "error" ∧ rest = [Ev.scriptError "error" handle.ptr m] ∧
          lo.panic = some m ∧ lo.bait = b) ∨
       (handle.typ = .luaListener ∧ ∃ m o, b.rtm handle.luaCaller args = some m ∧
          event ≠ "error" ∧
          nested b [Value.str event, Value.closure handle.luaCaller, Value.str m] = some o ∧
          rest = Ev.scriptError event handle.ptr m ::
            Ev.emit "error" [Value.str event, Value.closure handle.luaCaller, Value.str m] ::
            o.trace ∧
          lo.panic = o.fault ∧ lo.bait = o.bait)) := by
  unfold emitBody at h
  dsimp only at h
  split at h
  · rename_i htyp
    split at h
    · rename_i msg hmsg
      split at h
      · rename_i he
        split at h
        · cases h
        · rename_i o hn
          cases h
          exact ⟨rfl, rfl, _, by simp, Or.inr (Or.inr ⟨htyp, msg, o, hmsg, he, hn, rfl, rfl, rfl⟩)⟩
      · rename_i he
        have he : event = "error" := by simpa using he
        cases h
        subst he
        exact ⟨rfl, rfl, _, by simp, Or.inr (Or.inl ⟨htyp, msg, hmsg, rfl, rfl, rfl, rfl⟩)⟩
    · rename_i hnone
      split at h
      · split at h
        · cases h; exact ⟨rfl, rfl, [], by simp, Or.inl ⟨rfl, rfl, ⟨_, rfl⟩, fun _ => hnone⟩⟩
        · cases h
      · cases h
  · rename_i htyp
    split at h
    · cases h
      exact ⟨rfl, rfl, [], by simp, Or.inl ⟨rfl, rfl, ⟨_, rfl⟩, fun h1 => absurd h1 htyp⟩⟩
    · split at h
      · cases h
        exact ⟨rfl, rfl, [], by simp, Or.inl ⟨rfl, rfl, ⟨_, rfl⟩, fun h1 => absurd h1 htyp⟩⟩
      · split at h
        · split at h
          · cases h
            exact ⟨rfl, rfl, [], by simp,
              Or.inl ⟨rfl, rfl, ⟨_, rfl⟩, fun h1 => absurd h1 htyp⟩⟩
          · cases h
        · cases h

theorem typ_cases (l : Listener) : l.typ = .goListener ∨ l.typ = .luaListener := by
  cases l.typ
  · exact Or.inl rfl
  · exact Or.inr rfl

theorem emitLoop_shape (nested : Bait → List Value → Option EmitOut) (event : String)
    (args : List Value) (hs : List Listener) (rtm0 : Nat → List Value → Option String)
    (rec0 : Option (String → Nat → String → Option String))
    (hnested : ∀ b1 a o, nested b1 a = some o → b1.recoverer = rec0 →
      o.fault = none ∧ o.bait.recoverer = rec0 ∧
        ∀ e p a1, Ev.call e p a1 ∈ o.trace → e = "error") :
    ∀ (todo idx : Nat) (b : Bait) (handles : List Listener) (tr : List Ev) (lo : LoopOut),
      emitLoop nested event args todo idx b handles tr = some lo →
      b.rtm = rtm0 → b.recoverer = rec0 → (∀ j, idx ≤ j → handles[j]? = hs[j]?) →
      ∃ n rest,
        lo.trace = tr ++ ((hs.drop idx).take n).map (fun l => Ev.call event l.ptr args) ++ rest ∧
        (∀ e p a, Ev.call e p a ∈ rest → event ≠ "error" ∧ e = "error") ∧
        lo.bait.recoverer = rec0 ∧
        (∀ v, lo.panic = some v → 0 < lo.defers) ∧
        ∀ k l, hs[idx + k]? = some l → k < n → failsOn rtm0 args l = true →
          n = k + 1 ∧
          (l.typ = .goListener → rest = [] ∧ ∃ v, lo.panic = some v ∧ lo.handle = l.ptr) ∧
          (l.typ = .luaListener → ∀ m, rtm0 l.luaCaller args = some m →
            (event = "error" →
              rest = [Ev.scriptError "error" l.ptr m] ∧ lo.panic = some m ∧
                lo.handle = l.ptr) ∧
            (event ≠ "error" → lo.panic = none ∧ ∃ nt,
              rest = Ev.scriptError event l.ptr m ::
                Ev.emit "error" [Value.str event, Value.closure l.luaCaller, Value.str m] ::
                nt)) := by
  intro todo
  induction todo with
  | zero =>
    intro idx b handles tr lo h _ hrec _
    simp only [emitLoop, Option.some.injEq] at h
    subst h
    exact ⟨0, [], by simp, by simp, hrec, by simp, by simp⟩
  | succ todo ih =>
    intro idx b handles tr lo h hrtm hrec hsnap
    unfold emitLoop at h
    cases hh : handles[idx]? with
    | none =>
      rw [hh] at h
      simp only [Option.some.injEq] at h
      subst h
      exact ⟨0, [], by simp, by simp, hrec, by simp, by simp⟩
    | some handle =>
      rw [hh] at h
      dsimp only at h
      have hhs : hs[idx]? = some handle := by rw [← hsnap idx (le_refl _)]; exact hh
      have hdrop : hs.drop idx = handle :: hs.drop (idx + 1) := by
        obtain ⟨hlt, hget⟩ := List.getElem?_eq_some.1 hhs
        rw [← hget]
        exact List.drop_eq_getElem_cons hlt
      cases hbody : emitBody nested event args idx handle b handles tr with
      | next b1 handles1 tr1 =>
        rw [hbody] at h
        dsimp only at h
        obtain ⟨hb1, htr⟩ := emitBody_next _ _ _ _ _ _ _ _ _ _ _ hbody
        obtain ⟨k1, -, -, -⟩ := emitBody_next_keeps _ _ _ _ _ _ _ _ _ _ _ hbody
        obtain ⟨hnf, hsn⟩ := emitBody_next_shape _ _ _ _ _ _ _ _ _ _ _ hbody
        obtain ⟨n, rest, h1, h2, h3, h4, h5⟩ := ih (idx + 1) b1 handles1 tr1 lo h
          (k1.trans hrtm) (hb1.trans hrec)
          (fun j hj => (hsn j (by omega)).trans (hsnap j (by omega)))
        refine ⟨n + 1, rest, ?_, h2, h3, h4, ?_⟩
        · rw [h1, htr, hdrop]
          simp
        · intro k l hk hkn hf
          cases k with
          | zero =>
            simp only [Nat.add_zero] at hk
            rw [hhs] at hk
            cases hk
            rw [← hrtm, hnf] at hf
            cases hf
          | succ k =>
            have hk1 : hs[idx + 1 + k]? = some l := by
              rw [← hk]
              congr 1
              omega
            obtain ⟨hn, hrest⟩ := h5 k l hk1 (by omega) hf
            exact ⟨by omega, hrest⟩
      | leave lo1 =>
        rw [hbody] at h
        simp only [Option.some.injEq] at h
        subst h
        obtain ⟨hd, hhandle, rest, htrace, hcases⟩ :=
          emitBody_leave_shape _ _ _ _ _ _ _ _ _ hbody
        refine ⟨1, rest, ?_, ?_, ?_, ?_, ?_⟩
        · rw [htrace, hdrop]
          simp
        · intro e p a hmem
          rcases hcases with ⟨rfl, -⟩ | ⟨-, m, -, -, rfl, -⟩ | ⟨-, m, o, -, he, hn, rfl, -, -⟩
          · simp at hmem
          · simp at hmem
          · simp only [List.mem_cons, reduceCtorEq, false_or] at hmem
            exact ⟨he, (hnested b _ o hn hrec).2.2 e p a hmem⟩
        · rcases hcases with ⟨-, hb, -⟩ | ⟨-, m, -, -, -, -, hb⟩ | ⟨-, m, o, -, he, hn, -, -, hb⟩
          · rw [hb]; exact hrec
          · rw [hb]; exact hrec
          · rw [hb]; exact (hnested b _ o hn hrec).2.1
        · intro v _
          omega
        · intro k l hk hkn hf
          have hk0 : k = 0 := by omega
          subst hk0
          simp only [Nat.add_zero] at hk
          rw [hhs] at hk
          cases hk
          refine ⟨rfl, ?_, ?_⟩
          · intro hgo
            rcases hcases with ⟨hr, -, hv, -⟩ | ⟨hl, -⟩ | ⟨hl, -⟩
            · obtain ⟨v, hv⟩ := hv
              exact ⟨hr, v, hv, hhandle⟩
            · rw [hgo] at hl; cases hl
            · rw [hgo] at hl; cases hl
          · intro hlua m hm
            rw [← hrtm] at hm
            rcases hcases with ⟨-, -, -, hnone⟩ | ⟨-, m1, hm1, he, hr, hp, -⟩ |
              ⟨-, m1, o, hm1, he, hn, hr, hp, -⟩
            · rw [hnone hlua] at hm
              cases hm
            · rw [hm1] at hm
              cases hm
              exact ⟨fun _ => ⟨hr, hp, hhandle⟩, fun hne => absurd he hne⟩
            · rw [hm1] at hm
              cases hm
              refine ⟨fun he1 => absurd he1 he, fun _ => ⟨?_, _, hr⟩⟩
              rw [hp]
              exact (hnested b _ o hn hrec).1
      | unfinished =>
        rw [hbody] at h
        cases h

theorem runDefers_returning (b : Bait) (event : String) (handle d : Nat) (p : Option String)
    (tr : List Ev) (r : String → Nat → String → Option String) (hb : b.recoverer = some r)
    (hr : ∀ e h v, r e h v = none) (hd : ∀ v, p = some v → 0 < d) :
    runDefers b event handle d p tr =
      (none, tr ++ (p.map (fun v => Ev.recovered event handle v)).toList) := by
  cases p with
  | none => simp [runDefers_none]
  | some v =>
    obtain ⟨d1, rfl⟩ : ∃ d1, d = d1 + 1 := ⟨d - 1, by have := hd v rfl; omega⟩
    exact runDefers_recoverer_returns b event handle d1 v tr r hb (hr _ _ _)

/-- With a recoverer that returns, an emission gives back no panic, and the
trace is: calls of the first `n` listeners of the event in order, then
`rest`, in which the only listener calls are those of a nested "error"
emission. When a listener among those `n` fails, it is the last of them. -/
theorem Emit_shape (nested : Bait → List Value → Option EmitOut)
    (r : String → Nat → String → Option String) (hr : ∀ e h v, r e h v = none)
    (event : String)
    (hnested : ∀ b1 a o, nested b1 a = some o → b1.recoverer = some r →
      o.fault = none ∧ o.bait.recoverer = some r ∧
        ∀ e p a1, Ev.call e p a1 ∈ o.trace → e = "error")
    (b : Bait) (args : List Value) (hb : b.recoverer = some r) (lo : LoopOut)
    (hlo : emitLoop nested event args (b.handlers event).length 0 b (b.handlers event) [] =
      some lo) :
    (runDefers lo.bait event lo.handle lo.defers lo.panic lo.trace).1 = none ∧
    lo.bait.recoverer = some r ∧
    ∃ n rest,
      (runDefers lo.bait event lo.handle lo.defers lo.panic lo.trace).2 =
        ((b.handlers event).take n).map (fun l => Ev.call event l.ptr args) ++ rest ∧
      (∀ e p a, Ev.call e p a ∈ rest → event ≠ "error" ∧ e = "error") ∧
      ∀ k l, (b.handlers event)[k]? = some l → k < n → failsOn b.rtm args l = true →
        n = k + 1 ∧
        (l.typ = .goListener → ∃ v, rest = [Ev.recovered event l.ptr v]) ∧
        (l.typ = .luaListener → ∀ m, b.rtm l.luaCaller args = some m →
          (event = "error" →
            rest = [Ev.scriptError "error" l.ptr m, Ev.recovered "error" l.ptr m]) ∧
          (event ≠ "error" → ∃ nt,
            rest = Ev.scriptError event l.ptr m ::
              Ev.emit "error" [Value.str event, Value.closure l.luaCaller, Value.str m] ::
              nt)) := by
  obtain ⟨n, rest, h1, h2, h3, h4, h5⟩ := emitLoop_shape nested event args (b.handlers event)
    b.rtm (some r) hnested _ 0 b _ [] lo hlo rfl hb (fun _ _ => rfl)
  have hrun := runDefers_returning lo.bait event lo.handle lo.defers lo.panic lo.trace r h3 hr h4
  rw [hrun]
  refine ⟨rfl, h3, n,
    rest ++ (lo.panic.map (fun v => Ev.recovered event lo.handle v)).toList, ?_, ?_, ?_⟩
  · simp only [h1, List.drop_zero, List.nil_append, List.append_assoc]
  · intro e p a hmem
    rcases List.mem_append.1 hmem with hmem | hmem
    · exact h2 e p a hmem
    · cases hp : lo.panic with
      | none => rw [hp] at hmem; simp at hmem
      | some v => rw [hp] at hmem; simp at hmem
  · intro k l hk hkn hf
    have hk0 : (b.handlers event)[0 + k]? = some l := by rwa [Nat.zero_add]
    obtain ⟨hn, hgo, hlua⟩ := h5 k l hk0 hkn hf
    refine ⟨hn, ?_, ?_⟩
    · intro htyp
      obtain ⟨hrest, v, hv, hh⟩ := hgo htyp
      exact ⟨v, by rw [hrest, hv, hh]; rfl⟩
    · intro htyp m hm
      obtain ⟨he1, he2⟩ := hlua htyp m hm
      constructor
      · intro he
        obtain ⟨hrest, hp, hh⟩ := he1 he
        rw [hrest, hp, hh, he]
        rfl
      · intro he
        obtain ⟨hp, nt, hrest⟩ := he2 he
        exact ⟨nt, by rw [hrest, hp]; simp⟩

theorem Emit_error_safe (r : String → Nat → String → Option String)
    (hr : ∀ e h v, r e h v = none) (b : Bait) (args : List Value) (o : EmitOut)
    (h : Emit 1 b "error" args = some o) (hb : b.recoverer = some r) :
    o.fault = none ∧ o.bait.recoverer = some r ∧
      ∀ e p a1, Ev.call e p a1 ∈ o.trace → e = "error" := by
  unfold Emit at h
  cases hhs : b.handlers "error" with
  | nil =>
    rw [hhs] at h
    simp only [Option.some.injEq] at h
    subst h
    exact ⟨rfl, hb, by simp⟩
  | cons x xs =>
    rw [hhs] at h
    dsimp only at h
    cases hlo : emitLoop (fun b1 a => Emit 0 b1 "error" a) "error" args (x :: xs).length 0 b
        (x :: xs) [] with
    | none => rw [hlo] at h; cases h
    | some lo =>
      rw [hlo] at h
      simp only [Option.some.injEq] at h
      subst h
      rw [← hhs] at hlo
      obtain ⟨h1, h2, n, rest, h3, h4, -⟩ := Emit_shape (fun b1 a => Emit 0 b1 "error" a) r hr
        "error" (fun b1 a o ho => by simp [Emit] at ho) b args hb lo hlo
      refine ⟨h1, h2, ?_⟩
      intro e p a1 hmem
      change Ev.call e p a1 ∈
        (runDefers lo.bait "error" lo.handle lo.defers lo.panic lo.trace).2 at hmem
      rw [h3] at hmem
      rcases List.mem_append.1 hmem with hmem | hmem
      · obtain ⟨l, -, hl⟩ := List.mem_map.1 hmem
        cases hl
        rfl
      · exact absurd rfl (h4 e p a1 hmem).1

/-- C3, as the code has it. With a recoverer that returns, `Emit` gives the
same result for every bound of at least 2 on the nesting and raises no fault.
It invokes the first `n` listeners of the event, in order, and nothing after
them except inside a nested "error" emission. When one of the invoked
listeners fails, it is the last one invoked: the listeners behind it are not
called. A native panic goes to the recoverer, once, with the event and the
listener; a script error goes to the recoverer when the event is "error" and
to an emission of "error" with the event, the closure and the message
otherwise. -/
theorem C3_failure_ends_emission_without_fault (b : Bait) (event : String) (args : List Value)
    (r : String → Nat → String → Option String) (hb : b.recoverer = some r)
    (hr : ∀ e h v, r e h v = none) :
    ∃ out, (∀ fuel, 2 ≤ fuel → Emit fuel b event args = some out) ∧ out.fault = none ∧
      ∃ n rest,
        out.trace = ((b.handlers event).take n).map (fun l => Ev.call event l.ptr args) ++ rest ∧
        (∀ p a, Ev.call event p a ∉ rest) ∧
        ∀ k l, (b.handlers event)[k]? = some l → k < n → failsOn b.rtm args l = true →
          n = k + 1 ∧
          (l.typ = .goListener → ∃ v, rest = [Ev.recovered event l.ptr v]) ∧
          (l.typ = .luaListener → ∀ m, b.rtm l.luaCaller args = some m →
            (event = "error" →
              rest = [Ev.scriptError "error" l.ptr m, Ev.recovered "error" l.ptr m]) ∧
            (event ≠ "error" → ∃ nt,
              rest = Ev.scriptError event l.ptr m ::
                Ev.emit "error" [Value.str event, Value.closure l.luaCaller, Value.str m] ::
                nt)) := by
  obtain ⟨out, hout, -⟩ := Emit_escalates b event args
  refine ⟨out, hout, ?_⟩
  have h := hout 2 (le_refl 2)
  unfold Emit at h
  cases hhs : b.handlers event with
  | nil =>
    rw [hhs] at h
    simp only [Option.some.injEq] at h
    subst h
    exact ⟨rfl, 0, [], by simp, by simp, by simp⟩
  | cons x xs =>
    rw [hhs] at h
    dsimp only at h
    cases hlo : emitLoop (fun b1 a => Emit 1 b1 "error" a) event args (x :: xs).length 0 b
        (x :: xs) [] with
    | none => rw [hlo] at h; cases h
    | some lo =>
      rw [hlo] at h
      simp only [Option.some.injEq] at h
      subst h
      rw [← hhs] at hlo ⊢
      obtain ⟨h1, -, n, rest, h3, h4, h5⟩ := Emit_shape (fun b1 a => Emit 1 b1 "error" a) r hr
        event (fun b1 a o ho hb1 => Emit_error_safe r hr b1 a o ho hb1) b args hb lo hlo
      refine ⟨h1, n, rest, h3, ?_, h5⟩
      intro p a hmem
      obtain ⟨hne, he⟩ := h4 event p a hmem
      exact hne he

/-- C3, as the code has it, on the bus with a panicking listener 1 and a
returning listener 2 for "E": only listener 1 is invoked, the panic goes to
the recoverer and no fault leaves `Emit`. -/
theorem C3_failure_ends_emission_without_fault_witness :
    panicThenOn.recoverer = some absorbs ∧ (∀ e h v, absorbs e h v = none) ∧
    ∃ out, Emit 2 panicThenOn "E" [Value.other 7] = some out ∧ out.fault = none ∧
      ∃ n rest, out.trace =
          ((panicThenOn.handlers "E").take n).map (fun l => Ev.call "E" l.ptr [Value.other 7])
            ++ rest ∧
        ∀ p a, Ev.call "E" p a ∉ rest := by
  refine ⟨rfl, fun _ _ _ => rfl, ?_⟩
  obtain ⟨out, hout, hf, n, rest, ht, hno, -⟩ :=
    C3_failure_ends_emission_without_fault panicThenOn "E" [Value.other 7] absorbs rfl
      (fun _ _ _ => rfl)
  exact ⟨out, hout 2 (le_refl 2), hf, n, rest, ht, hno⟩

/-! ### The recoverer of a failing "error" listener -/

theorem invoked_append (a b : List Ev) : invoked (a ++ b) = invoked a ++ invoked b := by
  simp [invoked, List.filterMap_append]

theorem invoked_call (e : String) (p : Nat) (a : List Value) :
    invoked [Ev.call e p a] = [p] := rfl

theorem invoked_scriptError (e : String) (p : Nat) (m : String) :
    invoked [Ev.scriptError e p m] = [] := rfl

theorem invoked_recovered (e : String) (p : Nat) :
    ∀ vs : List String, invoked (vs.map (fun v => Ev.recovered e p v)) = [] := by
  intro vs
  induction vs with
  | nil => rfl
  | cons v vs ih => exact ih

theorem recoveries_recovered_map (e : String) (p : Nat) :
    ∀ vs : List String,
      recoveries (vs.map (fun v => Ev.recovered e p v)) = vs.map (fun v => (e, p, v)) := by
  intro vs
  induction vs with
  | nil => rfl
  | cons v vs ih =>
    rw [List.map_cons, recoveries_recovered, ih, List.map_cons]

/-- In an emission of "error" every `defer` executed belongs to a listener
invoked: when the loop is left, as many closures are deferred as listeners
were called. -/
theorem emitLoop_error_defers (nested : Bait → List Value → Option EmitOut) (args : List Value) :
    ∀ (todo idx : Nat) (b : Bait) (handles : List Listener) (tr : List Ev) (lo : LoopOut),
      emitLoop nested "error" args todo idx b handles tr = some lo →
      (invoked tr).length = idx → (invoked lo.trace).length = lo.defers := by
  intro todo
  induction todo with
  | zero =>
    intro idx b handles tr lo h hidx
    simp only [emitLoop, Option.some.injEq] at h
    subst h
    exact hidx
  | succ todo ih =>
    intro idx b handles tr lo h hidx
    unfold emitLoop at h
    cases hh : handles[idx]? with
    | none =>
      rw [hh] at h
      simp only [Option.some.injEq] at h
      subst h
      exact hidx
    | some handle =>
      rw [hh] at h
      dsimp only at h
      cases hbody : emitBody nested "error" args idx handle b handles tr with
      | next b1 handles1 tr1 =>
        rw [hbody] at h
        dsimp only at h
        obtain ⟨-, htr⟩ := emitBody_next _ _ _ _ _ _ _ _ _ _ _ hbody
        refine ih (idx + 1) b1 handles1 tr1 lo h ?_
        rw [htr, invoked_append, invoked_call, List.length_append, hidx]
        rfl
      | leave lo1 =>
        rw [hbody] at h
        simp only [Option.some.injEq] at h
        subst h
        obtain ⟨hd, -, rest, htrace, hcases⟩ := emitBody_leave_shape _ _ _ _ _ _ _ _ _ hbody
        rw [hd, htrace]
        rcases hcases with ⟨rfl, -⟩ | ⟨-, m, -, -, rfl, -⟩ | ⟨-, m, o, -, he, -⟩
        · rw [List.append_nil, invoked_append, invoked_call, List.length_append, hidx]
          rfl
        · rw [invoked_append, invoked_append, invoked_call, invoked_scriptError,
            List.length_append, List.length_append, hidx]
          rfl
        · exact absurd rfl he
      | unfinished =>
        rw [hbody] at h
        cases h

/-- The deferred closures with a recoverer set, `d + 1` of them and the panic
`m` in flight: the recoverer is called with `m`; each time it panics, the next
closure hands that panic to it again; the calls end when one returns or the
closures are used up, and the panic of the last call, if any, is what is left
in flight. -/
theorem runDefers_chain (b : Bait) (event : String) (p : Nat)
    (r : String → Nat → String → Option String) (hb : b.recoverer = some r) :
    ∀ (d : Nat) (m : String) (tr : List Ev),
      ∃ vs, (runDefers b event p (d + 1) (some m) tr).2 =
          tr ++ (m :: vs).map (fun v => Ev.recovered event p v) ∧
        List.Chain (fun v v1 => r event p v = some v1) m vs ∧
        (runDefers b event p (d + 1) (some m) tr).1 =
          r event p ((m :: vs).getLast (List.cons_ne_nil m vs)) ∧
        vs.length ≤ d ∧
        ((runDefers b event p (d + 1) (some m) tr).1 ≠ none → vs.length = d) := by
  have hc : ∀ m, callRecoverer b event p m = (r event p m, [Ev.recovered event p m]) := by
    intro m
    simp [callRecoverer, hb]
  have hstep : ∀ d m tr, runDefers b event p (d + 1) (some m) tr =
      runDefers b event p d (r event p m) (tr ++ [Ev.recovered event p m]) := by
    intro d m tr
    show runDefers b event p d (callRecoverer b event p m).1
      (tr ++ (callRecoverer b event p m).2) = _
    rw [hc]
  intro d
  induction d with
  | zero =>
    intro m tr
    rw [hstep]
    exact ⟨[], by simp [runDefers], List.Chain.nil, by simp [runDefers], le_refl _, fun _ => rfl⟩
  | succ d ih =>
    intro m tr
    rw [hstep]
    cases hr : r event p m with
    | none =>
      rw [runDefers_none]
      exact ⟨[], by simp, List.Chain.nil, by simp [hr], Nat.zero_le _, fun h => absurd rfl h⟩
    | some v =>
      obtain ⟨vs, h1, h2, h3, h4, h5⟩ := ih v (tr ++ [Ev.recovered event p m])
      refine ⟨v :: vs, ?_, List.Chain.cons hr h2, ?_, ?_, ?_⟩
      · rw [h1]
        simp
      · rw [h3, List.getLast_cons (List.cons_ne_nil v vs)]
      · simp only [List.length_cons]
        omega
      · intro h
        have := h5 h
        simp only [List.length_cons]
        omega

/-- A script error of an "error" listener with a recoverer set, whatever the
recoverer does: the calls of the recoverer are those of `runDefers_chain`, all
with the event "error" and the failing listener, at most one for each
listener invoked. -/
theorem Emit_error_chain (fuel : Nat) (b : Bait) (args : List Value) (out : EmitOut)
    (h : Emit (fuel + 1) b "error" args = some out)
    (r : String → Nat → String → Option String) (hb : b.recoverer = some r)
    (p : Nat) (m : String) (hpm : Ev.scriptError "error" p m ∈ out.trace) :
    ∃ vs, recoveries out.trace = (m :: vs).map (fun v => ("error", p, v)) ∧
      List.Chain (fun v v1 => r "error" p v = some v1) m vs ∧
      out.fault = r "error" p ((m :: vs).getLast (List.cons_ne_nil m vs)) ∧
      (m :: vs).length ≤ (invoked out.trace).length ∧
      (out.fault ≠ none → (m :: vs).length = (invoked out.trace).length) := by
  unfold Emit at h
  cases hhs : b.handlers "error" with
  | nil =>
    rw [hhs] at h
    simp only [Option.some.injEq] at h
    subst h
    simp at hpm
  | cons x xs =>
    rw [hhs] at h
    dsimp only at h
    rcases emitLoop_ends (fun b1 a => Emit fuel b1 "error" a) "error" args (x :: xs).length 0 b
      (x :: xs) [] with ⟨lo, hlo, calls, hc1, hc2, hc3, hend⟩ | ⟨_, hne, _⟩
    · have hdef := emitLoop_error_defers _ args _ 0 b (x :: xs) [] lo hlo rfl
      rw [hlo] at h
      simp only [Option.some.injEq] at h
      subst h
      have hpm := (mem_scriptErrors _ _ _ _).2 hpm
      change ("error", p, m) ∈
        scriptErrors (runDefers lo.bait "error" lo.handle lo.defers lo.panic lo.trace).2 at hpm
      obtain ⟨recs, hrecs, hr1, hr2, hr3⟩ :=
        runDefers_trace lo.bait "error" lo.handle lo.defers lo.panic lo.trace
      rcases hend with ⟨ht, hr⟩ | ⟨p1, m1, -, ht, hp, hh, hd, hr⟩ | ⟨_, _, _, _, _, hne, _⟩
      · exfalso
        rw [hrecs, ht] at hpm
        simp [scriptErrors_append, hc2, hr2, scriptErrors_nil] at hpm
      · have hpm1 : p = p1 ∧ m = m1 := by
          rw [hrecs, ht] at hpm
          simpa [scriptErrors_append, hc2, hr2, scriptErrors_nil, scriptErrors_scriptError]
            using hpm
        obtain ⟨rfl, rfl⟩ := hpm1
        obtain ⟨d, hd1⟩ : ∃ d, lo.defers = d + 1 := ⟨lo.defers - 1, by omega⟩
        obtain ⟨vs, h1, h2, h3, h4, h5⟩ :=
          runDefers_chain lo.bait "error" p r (hr.trans hb) d m lo.trace
        have hfault : (runDefers lo.bait "error" lo.handle lo.defers lo.panic lo.trace).1 =
            (runDefers lo.bait "error" p (d + 1) (some m) lo.trace).1 := by
          rw [hp, hh, hd1]
        have htrace : (runDefers lo.bait "error" lo.handle lo.defers lo.panic lo.trace).2 =
            lo.trace ++ (m :: vs).map (fun v => Ev.recovered "error" p v) := by
          rw [hp, hh, hd1, h1]
        have hinv : (invoked (runDefers lo.bait "error" lo.handle lo.defers lo.panic
            lo.trace).2).length = d + 1 := by
          rw [htrace, invoked_append, invoked_recovered, List.append_nil, hdef, hd1]
        refine ⟨vs, ?_, h2, ?_, ?_, ?_⟩
        · show recoveries (runDefers lo.bait "error" lo.handle lo.defers lo.panic lo.trace).2 = _
          rw [htrace, ht, List.nil_append, recoveries_append, recoveries_append, hc3,
            recoveries_scriptError, recoveries_nil, recoveries_recovered_map]
          rfl
        · show (runDefers lo.bait "error" lo.handle lo.defers lo.panic lo.trace).1 = _
          rw [hfault, h3]
        · show (m :: vs).length ≤
            (invoked (runDefers lo.bait "error" lo.handle lo.defers lo.panic lo.trace).2).length
          rw [hinv, List.length_cons]
          omega
        · intro hf
          show (m :: vs).length =
            (invoked (runDefers lo.bait "error" lo.handle lo.defers lo.panic lo.trace).2).length
          rw [hinv, List.length_cons]
          have hf1 : (runDefers lo.bait "error" p (d + 1) (some m) lo.trace).1 ≠ none := by
            rw [← hfault]
            exact hf
          rw [h5 hf1]
      · exact absurd rfl hne
    · exact absurd rfl hne

/-- C5, counterexample. With a recoverer that panics again, a native listener
1 and a raising script listener 2 for "error", `Emit("error")` invokes both;
the script error is handed to the recoverer by the deferred closure of one
listener, the panic of the recoverer by the deferred closure of the other:
the recoverer is called twice, and its second panic leaves `Emit`. -/
theorem C5_panicking_recoverer_is_called_again :
    raiseOnErrorRethrown.recoverer.map (fun r => r "error" 2 "bad") = some (some "bad") ∧
    registered raiseOnErrorRethrown "error" = [1, 2] ∧
    (Emit 2 raiseOnErrorRethrown "error" [Value.other 7]).map
        (fun o => (invoked o.trace, scriptErrors o.trace)) =
      some ([1, 2], [("error", 2, "bad")]) ∧
    (Emit 2 raiseOnErrorRethrown "error" [Value.other 7]).map
        (fun o => (recoveries o.trace, o.fault)) =
      some ([("error", 2, "bad"), ("error", 2, "bad")], some "bad") := by
  refine ⟨by decide, by decide, by decide, by decide⟩

/-- C5, as the code has it. `Emit` always returns: for every bus, event and
arguments it gives the same result for every bound of at least 2 on the
nesting, and makes at most one nested emission, none at all when the event is
"error". When the trace shows a script error `m` raised for the event "error"
by the listener at `p`, then `p` is a script listener registered for "error"
whose closure raised `m`. Without a recoverer the error leaves `Emit` as a
panic. With a recoverer whose call with "error", `p` and `m` returns, that is
its only call, and `Emit` returns without a fault. In an emission of "error"
with any recoverer, the calls of the recoverer all have the event "error" and
the listener `p`; the first is handed `m`, each later one the panic of the
call before it; there are at most as many as listeners were invoked; what
leaves `Emit` is the panic of the last call, and if that is one, there were
as many calls as listeners invoked. -/
theorem C5_error_listener_failure_is_escalated (b : Bait) (event : String) (args : List Value) :
    ∃ out, (∀ fuel, 2 ≤ fuel → Emit fuel b event args = some out) ∧
      (emissions out.trace).length ≤ 1 ∧
      (event = "error" → emissions out.trace = []) ∧
      ∀ p m, Ev.scriptError "error" p m ∈ out.trace →
        (∃ l ∈ b.handlers "error", ∃ a, l.ptr = p ∧ l.typ = .luaListener ∧
          b.rtm l.luaCaller a = some m) ∧
        (b.recoverer = none → out.fault = some m ∧ recoveries out.trace = []) ∧
        (∀ r, b.recoverer = some r → r "error" p m = none →
          recoveries out.trace = [("error", p, m)] ∧ out.fault = none) ∧
        (∀ r, b.recoverer = some r → event = "error" →
          ∃ vs, recoveries out.trace = (m :: vs).map (fun v => ("error", p, v)) ∧
            List.Chain (fun v v1 => r "error" p v = some v1) m vs ∧
            out.fault = r "error" p ((m :: vs).getLast (List.cons_ne_nil m vs)) ∧
            (m :: vs).length ≤ (invoked out.trace).length ∧
            (out.fault ≠ none → (m :: vs).length = (invoked out.trace).length)) := by
  obtain ⟨out, hout, h1, h2, h3⟩ := Emit_escalates b event args
  refine ⟨out, hout, h1, h2, ?_⟩
  intro p m hpm
  refine ⟨Emit_origin 0 b event args out (hout 2 (le_refl 2)) p m
    ((mem_scriptErrors _ _ _ _).2 hpm), (h3 p m hpm).1, (h3 p m hpm).2, ?_⟩
  intro r hr he
  subst he
  exact Emit_error_chain 1 b args out (hout 2 (le_refl 2)) r hr p m hpm

/-- C5, as the code has it, on two buses with a native listener 1 and a
raising script listener 2 for "error". With a recoverer that returns, the
recoverer is called once, with "error", listener 2 and the message, and
`Emit` returns. With the recoverer that panics again, every call has "error"
and listener 2, and there are as many calls as listeners invoked. -/
theorem C5_error_listener_failure_is_escalated_witness :
    (∃ out, Emit 2 raiseOnError "error" [Value.other 7] = some out ∧
      invoked out.trace = [1, 2] ∧
      Ev.scriptError "error" 2 "bad" ∈ out.trace ∧
      recoveries out.trace = [("error", 2, "bad")] ∧ out.fault = none) ∧
    (∃ out, Emit 2 raiseOnErrorRethrown "error" [Value.other 7] = some out ∧
      invoked out.trace = [1, 2] ∧
      Ev.scriptError "error" 2 "bad" ∈ out.trace ∧
      ∃ vs, recoveries out.trace = ("bad" :: vs).map (fun v => ("error", 2, v)) ∧
        ("bad" :: vs).length = 2) := by
  constructor
  · obtain ⟨out, hout, -, -, hspec⟩ :=
      C5_error_listener_failure_is_escalated raiseOnError "error" [Value.other 7]
    have h2 := hout 2 (le_refl 2)
    have htr : (Emit 2 raiseOnError "error" [Value.other 7]).map (fun o => o.trace) =
        some [Ev.call "error" 1 [Value.other 7], Ev.call "error" 2 [Value.other 7],
          Ev.scriptError "error" 2 "bad", Ev.recovered "error" 2 "bad"] := by decide
    rw [h2] at htr
    have htr1 : out.trace = [Ev.call "error" 1 [Value.other 7],
        Ev.call "error" 2 [Value.other 7],
        Ev.scriptError "error" 2 "bad", Ev.recovered "error" 2 "bad"] := by simpa using htr
    have hmem : Ev.scriptError "error" 2 "bad" ∈ out.trace := by rw [htr1]; simp
    have hinv : invoked out.trace = [1, 2] := by rw [htr1]; rfl
    exact ⟨out, h2, hinv, hmem, (hspec 2 "bad" hmem).2.2.1 absorbs rfl rfl⟩
  · obtain ⟨out, hout, -, -, hspec⟩ :=
      C5_error_listener_failure_is_escalated raiseOnErrorRethrown "error" [Value.other 7]
    have h2 := hout 2 (le_refl 2)
    have htr : (Emit 2 raiseOnErrorRethrown "error" [Value.other 7]).map
        (fun o => (o.trace, o.fault)) =
        some ([Ev.call "error" 1 [Value.other 7], Ev.call "error" 2 [Value.other 7],
          Ev.scriptError "error" 2 "bad", Ev.recovered "error" 2 "bad",
          Ev.recovered "error" 2 "bad"], some "bad") := by decide
    rw [h2] at htr
    have htr1 : out.trace = [Ev.call "error" 1 [Value.other 7],
        Ev.call "error" 2 [Value.other 7], Ev.scriptError "error" 2 "bad",
        Ev.recovered "error" 2 "bad", Ev.recovered "error" 2 "bad"] ∧
        out.fault = some "bad" := by simpa using htr
    have hmem : Ev.scriptError "error" 2 "bad" ∈ out.trace := by rw [htr1.1]; simp
    have hinv : invoked out.trace = [1, 2] := by rw [htr1.1]; rfl
    obtain ⟨vs, hv1, -, -, -, hv5⟩ := (hspec 2 "bad" hmem).2.2.2 rethrows rfl rfl
    have hf : out.fault ≠ none := by rw [htr1.2]; simp
    exact ⟨out, h2, hinv, hmem, vs, hv1, by rw [hv5 hf, hinv]; rfl⟩

/-! ### Unsubscribing -/

/-- C6. With two listeners for "E" registered with the same closure,
`OffLua("E", closure)` removes the first, then indexes the shortened slice out
of range: the panic leaves `OffLua`, and listener 2, which has the closure,
is still registered. With a third listener behind the two, `OffLua` returns,
and has removed both listeners that have the closure, not only the first. -/
theorem C6_offLua_panics_on_repeated_closure :
    registered sameClosureTwice "E" = [1, 2] ∧
    (sameClosureTwice.handlers "E").map (fun l => l.luaCaller) = [10, 10] ∧
    (match OffLua sameClosureTwice "E" 10 with
      | .ok b => (none, registered b "E")
      | .error (e, b) => (some e, registered b "E")) = (some "index out of range", [2]) ∧
    registered sameClosureTwiceThenOn "E" = [1, 2, 3] ∧
    (match OffLua sameClosureTwiceThenOn "E" 10 with
      | .ok b => (none, registered b "E")
      | .error (e, b) => (some e, registered b "E")) = (none, [3]) := by
  refine ⟨by decide, by decide, by decide, by decide, by decide⟩

theorem getElem?_middle (pre : List Listener) (a : Listener) (rest : List Listener) :
    (pre ++ a :: rest)[pre.length]? = some a := by
  rw [List.getElem?_append_right (le_refl _)]
  simp

theorem offLoop_skip (sel : Listener → Bool) (event : String) :
    ∀ (A : List Listener) (todo i : Nat) (b : Bait) (pre rest : List Listener),
      pre.length = i → (∀ a ∈ A, sel a = false) →
      offLoop sel event (A.length + todo) i b (pre ++ A ++ rest) =
        offLoop sel event todo (i + A.length) b (pre ++ A ++ rest) := by
  intro A
  induction A with
  | nil => intro todo i b pre rest _ _; simp
  | cons a A ih =>
    intro todo i b pre rest hpre hA
    have hlen : (a :: A).length + todo = (A.length + todo) + 1 := by simp; omega
    have hidx : i + (a :: A).length = i + 1 + A.length := by simp; omega
    have hform : pre ++ a :: A ++ rest = pre ++ a :: (A ++ rest) := by simp
    have hget : (pre ++ a :: A ++ rest)[i]? = some a := by
      subst hpre
      rw [hform]
      exact getElem?_middle pre a (A ++ rest)
    rw [hlen, offLoop, hget]
    dsimp only
    rw [if_neg (by simp [hA a (List.mem_cons_self _ _)]), hidx]
    have := ih todo (i + 1) b (pre ++ [a]) rest (by simp [hpre])
      (fun x hx => hA x (List.mem_cons_of_mem _ hx))
    have hform2 : pre ++ [a] ++ A ++ rest = pre ++ a :: A ++ rest := by simp
    rw [hform2] at this
    exact this

theorem swapRemove_perm (A B : List Listener) (x last : Listener)
    (hlast : (A ++ x :: B)[(A ++ x :: B).length - 1]? = some last) :
    (((A ++ x :: B).set A.length last).dropLast).Perm (A ++ B) := by
  have hset : (A ++ x :: B).set A.length last = A ++ last :: B := by
    simp
  rw [hset]
  rcases List.eq_nil_or_concat B with rfl | ⟨B1, z, rfl⟩
  · simp
  · simp only [List.concat_eq_append] at hlast ⊢
    have hz : last = z := by
      have hL : A ++ x :: (B1 ++ [z]) = (A ++ x :: B1) ++ z :: [] := by simp
      rw [hL] at hlast
      have hi : ((A ++ x :: B1) ++ z :: []).length - 1 = (A ++ x :: B1).length := by simp
      rw [hi, getElem?_middle] at hlast
      exact (Option.some.inj hlast).symm
    subst hz
    have : A ++ last :: (B1 ++ [last]) = (A ++ last :: B1) ++ [last] := by simp
    rw [this, List.dropLast_concat]
    exact List.Perm.append_left A (List.perm_append_singleton last B1).symm

theorem filter_le_one_cases (sel : Listener → Bool) :
    ∀ hs : List Listener, (hs.filter sel).length ≤ 1 →
      (∀ a ∈ hs, sel a = false) ∨
      ∃ A x B, hs = A ++ x :: B ∧ sel x = true ∧ (∀ a ∈ A, sel a = false) ∧
        (∀ y ∈ B, sel y = false) := by
  intro hs
  induction hs with
  | nil => intro _; exact Or.inl (by simp)
  | cons a hs ih =>
    intro h
    cases ha : sel a with
    | true =>
      right
      refine ⟨[], a, hs, rfl, ha, by simp, ?_⟩
      simp only [List.filter_cons, ha, if_true, List.length_cons] at h
      have hnil : hs.filter sel = [] := List.length_eq_zero.1 (by omega)
      intro y hy
      have := List.filter_eq_nil_iff.1 hnil y hy
      simpa using this
    | false =>
      simp only [List.filter_cons, ha] at h
      rcases ih (by simpa using h) with hno | ⟨A, x, B, rfl, hx, hA, hB⟩
      · left
        intro y hy
        rcases List.mem_cons.1 hy with rfl | hy
        · exact ha
        · exact hno y hy
      · right
        refine ⟨a :: A, x, B, rfl, hx, ?_, hB⟩
        intro y hy
        rcases List.mem_cons.1 hy with rfl | hy
        · exact ha
        · exact hA y hy

theorem offLoop_nomatch (sel : Listener → Bool) (event : String) (b : Bait)
    (hs : List Listener) (hno : ∀ a ∈ hs, sel a = false) :
    offLoop sel event hs.length 0 b hs = .ok b := by
  have := offLoop_skip sel event hs 0 0 b [] [] rfl hno
  simp only [Nat.add_zero, List.nil_append, List.append_nil, Nat.zero_add] at this
  rw [this]
  rfl

theorem offLoop_single (sel : Listener → Bool) (event : String) (b : Bait)
    (A B : List Listener) (x : Listener) (hb : b.handlers event = A ++ x :: B)
    (hx : sel x = true) (hA : ∀ a ∈ A, sel a = false) (hB : ∀ y ∈ B, sel y = false) :
    ∃ b1, offLoop sel event (A ++ x :: B).length 0 b (A ++ x :: B) = .ok b1 ∧
      (b1.handlers event).Perm (A ++ B) ∧
      (∀ e, e ≠ event → b1.handlers e = b.handlers e) ∧
      b1.recoverer = b.recoverer ∧ b1.rtm = b.rtm ∧ b1.nextPtr = b.nextPtr := by
  have hskip := offLoop_skip sel event A (B.length + 1) 0 b [] (x :: B) rfl hA
  simp only [List.nil_append, Nat.zero_add] at hskip
  have hlen : (A ++ x :: B).length = A.length + (B.length + 1) := by simp
  rw [hlen, hskip]
  have hget : (A ++ x :: B)[A.length]? = some x := getElem?_middle A x B
  obtain ⟨last, hlast⟩ : ∃ last, (A ++ x :: B)[(A ++ x :: B).length - 1]? = some last := by
    have : (A ++ x :: B).length - 1 < (A ++ x :: B).length := by simp
    exact ⟨_, List.getElem?_eq_getElem this⟩
  have hrm : removeListener b event A.length =
      .ok { b with handlers := fun e =>
        if e = event then ((A ++ x :: B).set A.length last).dropLast else b.handlers e } := by
    unfold removeListener
    simp only [hb, hlast]
    rw [if_pos (by simp)]
  rw [offLoop, hget]
  dsimp only
  rw [if_pos hx, hrm]
  dsimp only
  rw [hb, hlast]
  simp only [Option.getD_some]
  have hset : (A ++ x :: B).set A.length last = (A ++ [last]) ++ B ++ [] := by simp
  rw [hset]
  have hskip2 := offLoop_skip sel event B 0 (A.length + 1)
    { b with handlers := fun e =>
      if e = event then ((A ++ [last]) ++ B ++ []).dropLast else b.handlers e }
    (A ++ [last]) [] (by simp) hB
  simp only [Nat.add_zero] at hskip2
  rw [hskip2]
  refine ⟨_, rfl, ?_, ?_, rfl, rfl, rfl⟩
  · simp only [if_true]
    rw [← hset]
    exact swapRemove_perm A B x last hlast
  · intro e he
    simp [he]

theorem offLoop_unsubscribed (sel : Listener → Bool) (event : String) (b : Bait)
    (h : ((b.handlers event).filter sel).length ≤ 1) :
    ∃ b1, offLoop sel event (b.handlers event).length 0 b (b.handlers event) = .ok b1 ∧
      Unsubscribed sel event b b1 := by
  rcases filter_le_one_cases sel _ h with hno | ⟨A, x, B, hb, hx, hA, hB⟩
  · refine ⟨b, offLoop_nomatch sel event b _ hno, ?_, fun _ _ => rfl, rfl, rfl, rfl, fun _ => rfl⟩
    have : (b.handlers event).filter (fun l => !sel l) = b.handlers event := by
      rw [List.filter_eq_self]
      intro a ha
      simp [hno a ha]
    rw [this]
  · obtain ⟨b1, h1, h2, h3, h4, h5, h6⟩ := offLoop_single sel event b A B x hb hx hA hB
    refine ⟨b1, by rw [hb]; exact h1, ?_, h3, h4, h5, h6, ?_⟩
    · have : (A ++ x :: B).filter (fun l => !sel l) = A ++ B := by
        rw [List.filter_append, List.filter_cons]
        simp only [hx, Bool.not_true, Bool.false_eq_true, if_false]
        congr 1
        · rw [List.filter_eq_self]
          intro a ha
          simp [hA a ha]
        · rw [List.filter_eq_self]
          intro a ha
          simp [hB a ha]
      rw [hb, this]
      exact h2
    · intro hno
      have := hno x (by rw [hb]; simp)
      rw [hx] at this
      cases this

theorem distinct_New (rtm : Nat → List Value → Option String) : Distinct (New rtm) := by
  intro e
  simp [New]

theorem distinct_add (b : Bait) (event : String) (listener : Listener) (hb : Distinct b)
    (hp : listener.ptr = b.nextPtr) :
    Distinct (addListener { b with nextPtr := b.nextPtr + 1 } event listener) := by
  intro e
  by_cases he : e = event
  · subst he
    obtain ⟨h1, h2⟩ := hb e
    simp only [addListener, if_true]
    constructor
    · rw [List.map_append, List.nodup_append]
      refine ⟨h1, by simp, ?_⟩
      intro p hp1 hp2
      simp only [List.map_cons, List.map_nil, List.mem_singleton] at hp2
      obtain ⟨l, hl, rfl⟩ := List.mem_map.1 hp1
      have := h2 l hl
      omega
    · intro l hl
      rcases List.mem_append.1 hl with hl | hl
      · have := h2 l hl
        omega
      · simp only [List.mem_singleton] at hl
        subst hl
        omega
  · obtain ⟨h1, h2⟩ := hb e
    simp only [addListener, he, if_false]
    exact ⟨h1, fun l hl => by have := h2 l hl; omega⟩

theorem removeListener_perm (b b1 : Bait) (event : String) (idx : Nat)
    (h : removeListener b event idx = .ok b1) :
    (∃ A x B, b.handlers event = A ++ x :: B ∧ (b1.handlers event).Perm (A ++ B)) ∧
      (∀ e, e ≠ event → b1.handlers e = b.handlers e) ∧ b1.nextPtr = b.nextPtr := by
  unfold removeListener at h
  dsimp only at h
  split at h
  · cases h
  · rename_i last hlast
    split at h
    · rename_i hidx
      cases h
      refine ⟨?_, fun e he => by simp [he], rfl⟩
      have hdecomp : b.handlers event =
          (b.handlers event).take idx ++ (b.handlers event)[idx] ::
            (b.handlers event).drop (idx + 1) := by
        rw [← List.drop_eq_getElem_cons hidx, List.take_append_drop]
      refine ⟨_, _, _, hdecomp, ?_⟩
      simp only [if_true]
      have hlen : ((b.handlers event).take idx).length = idx := by
        rw [List.length_take]
        omega
      have := swapRemove_perm ((b.handlers event).take idx) ((b.handlers event).drop (idx + 1))
        ((b.handlers event)[idx]) last (by rw [← hdecomp]; exact hlast)
      rw [← hdecomp, hlen] at this
      exact this
    · cases h

theorem distinct_remove (b b1 : Bait) (event : String) (idx : Nat) (hb : Distinct b)
    (h : removeListener b event idx = .ok b1) : Distinct b1 := by
  obtain ⟨⟨A, x, B, hdec, hperm⟩, hoth, hnext⟩ := removeListener_perm b b1 event idx h
  intro e
  by_cases he : e = event
  · subst he
    obtain ⟨h1, h2⟩ := hb e
    rw [hdec] at h1 h2
    constructor
    · rw [(hperm.map _).nodup_iff]
      refine h1.sublist ?_
      exact (List.Sublist.append_left (List.sublist_cons_self x B) A).map _
    · intro l hl
      rw [hnext]
      have hl1 : l ∈ A ++ B := hperm.mem_iff.1 hl
      apply h2
      rcases List.mem_append.1 hl1 with hl1 | hl1
      · exact List.mem_append_left _ hl1
      · exact List.mem_append_right _ (List.mem_cons_of_mem _ hl1)
  · rw [hoth e he, hnext]
    exact hb e

theorem distinct_offLoop (sel : Listener → Bool) (event : String) :
    ∀ (todo i : Nat) (b : Bait) (handles : List Listener) (b1 : Bait),
      Distinct b → offLoop sel event todo i b handles = .ok b1 → Distinct b1 := by
  intro todo
  induction todo with
  | zero =>
    intro i b handles b1 hb h
    simp only [offLoop, Except.ok.injEq] at h
    subst h
    exact hb
  | succ todo ih =>
    intro i b handles b1 hb h
    unfold offLoop at h
    split at h
    · simp only [Except.ok.injEq] at h
      subst h
      exact hb
    · split at h
      · split at h
        · cases h
        · rename_i b2 hrm
          exact ih _ _ _ _ (distinct_remove _ _ _ _ hb hrm) h
      · exact ih _ _ _ _ hb h

theorem distinct_offLoop_panic (sel : Listener → Bool) (event : String) :
    ∀ (todo i : Nat) (b : Bait) (handles : List Listener) (e : String) (b1 : Bait),
      Distinct b → offLoop sel event todo i b handles = .error (e, b1) → Distinct b1 := by
  intro todo
  induction todo with
  | zero =>
    intro i b handles e b1 hb h
    simp [offLoop] at h
  | succ todo ih =>
    intro i b handles e b1 hb h
    unfold offLoop at h
    split at h
    · cases h
    · split at h
      · split at h
        · cases h
          exact hb
        · rename_i b2 hrm
          exact ih _ _ _ _ _ (distinct_remove _ _ _ _ hb hrm) h
      · exact ih _ _ _ _ _ hb h

theorem distinct_emitLoop (nested : Bait → List Value → Option EmitOut) (event : String)
    (args : List Value)
    (hnested : ∀ b1 a o, Distinct b1 → nested b1 a = some o → Distinct o.bait) :
    ∀ (todo idx : Nat) (b : Bait) (handles : List Listener) (tr : List Ev) (lo : LoopOut),
      Distinct b → emitLoop nested event args todo idx b handles tr = some lo →
      Distinct lo.bait := by
  intro todo
  induction todo with
  | zero =>
    intro idx b handles tr lo hb h
    simp only [emitLoop, Option.some.injEq] at h
    subst h
    exact hb
  | succ todo ih =>
    intro idx b handles tr lo hb h
    unfold emitLoop at h
    split at h
    · simp only [Option.some.injEq] at h
      subst h
      exact hb
    · rename_i handle _
      split at h
      · rename_i b1 handles1 tr1 hbody
        refine ih _ _ _ _ _ ?_ h
        unfold emitBody at hbody
        dsimp only at hbody
        split at hbody
        · split at hbody
          · split at hbody
            · split at hbody <;> cases hbody
            · cases hbody
          · split at hbody
            · split at hbody
              · cases hbody
              · rename_i hrm
                cases hbody
                exact distinct_remove _ _ _ _ hb hrm
            · cases hbody; exact hb
        · split at hbody
          · cases hbody
          · split at hbody
            · cases hbody
            · split at hbody
              · split at hbody
                · cases hbody
                · rename_i hrm
                  cases hbody
                  exact distinct_remove _ _ _ _ hb hrm
              · cases hbody; exact hb
      · rename_i lo1 hbody
        simp only [Option.some.injEq] at h
        subst h
        obtain ⟨-, -, rest, -, hcases⟩ := emitBody_leave_shape _ _ _ _ _ _ _ _ _ hbody
        rcases hcases with ⟨-, hbt, -⟩ | ⟨-, m, -, -, -, -, hbt⟩ | ⟨-, m, o, -, -, hn, -, -, hbt⟩
        · rw [hbt]; exact hb
        · rw [hbt]; exact hb
        · rw [hbt]; exact hnested _ _ _ hb hn
      · cases h

theorem distinct_Emit : ∀ (fuel : Nat) (b : Bait) (event : String) (args : List Value)
    (out : EmitOut), Distinct b → Emit fuel b event args = some out → Distinct out.bait := by
  intro fuel
  induction fuel with
  | zero => intro b event args out _ h; simp [Emit] at h
  | succ fuel ih =>
    intro b event args out hb h
    unfold Emit at h
    split at h
    · simp only [Option.some.injEq] at h
      subst h
      exact hb
    · split at h
      · cases h
      · rename_i lo hlo
        simp only [Option.some.injEq] at h
        subst h
        exact distinct_emitLoop _ event args (fun b1 a o hb1 ho => ih b1 "error" a o hb1 ho)
          _ _ _ _ _ _ hb hlo

theorem distinct_reachable (b : Bait) (h : Reachable b) : Distinct b := by
  induction h with
  | new rtm => exact distinct_New rtm
  | setRecoverer b r _ ih => exact ih
  | viaOn b event handler _ ih => exact distinct_add b event _ ih rfl
  | viaOnLua b event handler _ ih => exact distinct_add b event _ ih rfl
  | viaOnce b event handler _ ih => exact distinct_add b event _ ih rfl
  | viaOnceLua b event handler _ ih => exact distinct_add b event _ ih rfl
  | viaEmit b fuel event args out _ hout ih => exact distinct_Emit fuel b event args out ih hout
  | viaOff b event listener b1 _ hoff ih => exact distinct_offLoop _ _ _ _ _ _ _ ih hoff
  | viaOffLua b event handler b1 _ hoff ih => exact distinct_offLoop _ _ _ _ _ _ _ ih hoff
  | viaOffPanic b event listener e b1 _ hoff ih =>
    exact distinct_offLoop_panic _ _ _ _ _ _ _ _ ih hoff
  | viaOffLuaPanic b event handler e b1 _ hoff ih =>
    exact distinct_offLoop_panic _ _ _ _ _ _ _ _ ih hoff

theorem filter_ptr_le_one (p : Nat) : ∀ hs : List Listener,
    (hs.map (fun l => l.ptr)).Nodup → (hs.filter (fun l => l.ptr == p)).length ≤ 1 := by
  intro hs
  induction hs with
  | nil => intro _; simp
  | cons a hs ih =>
    intro h
    simp only [List.map_cons, List.nodup_cons] at h
    obtain ⟨hnot, hnd⟩ := h
    by_cases ha : a.ptr = p
    · have hnil : hs.filter (fun l => l.ptr == p) = [] := by
        rw [List.filter_eq_nil_iff]
        intro l hl hlp
        apply hnot
        have : l.ptr = p := by simpa using hlp
        rw [ha, ← this]
        exact List.mem_map.2 ⟨l, hl, rfl⟩
      simp [List.filter_cons, ha, hnil]
    · have := ih hnd
      simp [List.filter_cons, ha]
      exact this

/-- Where the two functions do unsubscribe. On every bus the package's
functions lead to, `Off` returns without a fault; so does `OffLua` when at
most one listener of the event's list has the given closure. The event's list
then keeps exactly the listeners that do not match (the order may change),
the other events, the recoverer and the rest of the bus stay as they were,
and when nothing matches, or the event has no listeners, the bus is
unchanged. -/
theorem off_removes_the_single_match (b : Bait) (hb : Reachable b) (event : String) :
    (∀ listener, ∃ b1, Off b event listener = .ok b1 ∧
        Unsubscribed (fun l => l.ptr == listener) event b b1) ∧
    (∀ handler, ((b.handlers event).filter (fun l => l.luaCaller == handler)).length ≤ 1 →
      ∃ b1, OffLua b event handler = .ok b1 ∧
        Unsubscribed (fun l => l.luaCaller == handler) event b b1) :=
  ⟨fun listener => offLoop_unsubscribed (fun l => l.ptr == listener) event b
      (filter_ptr_le_one listener _ (distinct_reachable b hb event).1),
   fun handler h => offLoop_unsubscribed (fun l => l.luaCaller == handler) event b h⟩

/-- On the bus with script listeners 1 (closure 10) and 2 (closure 11) and the
native listener 3 for "E": `OffLua` with closure 10 leaves listeners 3 and 2,
`OffLua` with a closure nobody uses and `Off` on "F" change nothing, `Off`
with listener 2 leaves 1 and 3. -/
theorem off_removes_the_single_match_on_three :
    Reachable twoClosuresThenOn ∧
    registered twoClosuresThenOn "E" = [1, 2, 3] ∧
    (∃ b1, OffLua twoClosuresThenOn "E" 10 = .ok b1 ∧
      Unsubscribed (fun l => l.luaCaller == 10) "E" twoClosuresThenOn b1 ∧
      registered b1 "E" = [3, 2]) ∧
    (∃ b1, OffLua twoClosuresThenOn "E" 12 = .ok b1 ∧ b1 = twoClosuresThenOn) ∧
    (∃ b1, Off twoClosuresThenOn "F" 2 = .ok b1 ∧ b1 = twoClosuresThenOn) ∧
    (∃ b1, Off twoClosuresThenOn "E" 2 = .ok b1 ∧ registered b1 "E" = [1, 3]) := by
  have hreach : Reachable twoClosuresThenOn :=
    Reachable.viaOn _ "E" returns
      (Reachable.viaOnLua _ "E" 11 (Reachable.viaOnLua _ "E" 10 (Reachable.new quiet)))
  refine ⟨hreach, by decide, ?_, ?_, ?_, ?_⟩
  · obtain ⟨b1, h1, h2⟩ :=
      (off_removes_the_single_match twoClosuresThenOn hreach "E").2 10 (by decide)
    refine ⟨b1, h1, h2, ?_⟩
    have : (match OffLua twoClosuresThenOn "E" 10 with
      | .ok b => some (registered b "E")
      | .error _ => none) = some [3, 2] := by decide
    rw [h1] at this
    simpa using this
  · obtain ⟨b1, h1, h2⟩ :=
      (off_removes_the_single_match twoClosuresThenOn hreach "E").2 12 (by decide)
    exact ⟨b1, h1, h2.2.2.2.2.2 (by decide)⟩
  · obtain ⟨b1, h1, h2⟩ :=
      (off_removes_the_single_match twoClosuresThenOn hreach "F").1 2
    exact ⟨b1, h1, h2.2.2.2.2.2 (by decide)⟩
  · obtain ⟨b1, h1, -⟩ :=
      (off_removes_the_single_match twoClosuresThenOn hreach "E").1 2
    refine ⟨b1, h1, ?_⟩
    have : (match Off twoClosuresThenOn "E" 2 with
      | .ok b => some (registered b "E")
      | .error _ => none) = some [1, 3] := by decide
    rw [h1] at this
    simpa using this

end bait

/-! ## Job control: the table and its mutex, starting a job -/

/-! ### What the job table does while its mutex is free -/

theorem add_unlocked (j : jobHandler) (cmd : String) (args : List String) (path : String)
    (hooks : Published) (hmu : j.mu = { readers := 0, writer := false }) :
    ∃ jb j1, j.add cmd args path hooks =
        .ok (jb, j1, hooks ++ [("job.add", wrapInt (j.latestID + 1))]) ∧
      jb.id = wrapInt (j.latestID + 1) ∧ jb.running = false ∧
      j1.latestID = wrapInt (j.latestID + 1) ∧
      j1.mu = j.mu ∧ j1.jobs (wrapInt (j.latestID + 1)) = some jb ∧
      ∀ k, k ≠ wrapInt (j.latestID + 1) → j1.jobs k = j.jobs k := by
  let jb : job :=
    { cmd := cmd, running := false, id := wrapInt (j.latestID + 1), args := args, path := path,
      cmdout := Writer.osStdout, cmderr := Writer.osStderr, stdout := "", stderr := "",
      ud := jobUserData (wrapInt (j.latestID + 1)), handle := none, exitCode := 0, pid := 0,
      once := false }
  refine ⟨jb, { j with jobs := fun k => if k = wrapInt (j.latestID + 1) then some jb
                                        else j.jobs k,
                       latestID := wrapInt (j.latestID + 1) }, ?_, rfl, rfl, rfl, rfl, ?_, ?_⟩
  · simp [jobHandler.add, RWMutex.Lock, RWMutex.Unlock, hmu, jb]
  · simp
  · intro k hk
    simp [hk]

theorem disown_unknown (j : jobHandler) (id : Int) (hw : j.mu.writer = false)
    (hid : j.jobs id = none) :
    j.disown id =
      .ok (some "job doesnt exist", { j with mu := { j.mu with readers := j.mu.readers + 1 } }) := by
  simp [jobHandler.disown, RWMutex.RLock, hw, hid]

theorem disown_known_unlocked (j : jobHandler) (id : Int) (jb : job)
    (hmu : j.mu = { readers := 0, writer := false }) (hid : j.jobs id = some jb) :
    j.disown id = .ok (none, { j with jobs := fun k => if k = id then none else j.jobs k }) := by
  simp [jobHandler.disown, RWMutex.RLock, RWMutex.RUnlock, RWMutex.Lock, RWMutex.Unlock, hmu, hid]

theorem add_blocked_of_reader (j : jobHandler) (cmd : String) (args : List String)
    (path : String) (hooks : Published) (hr : 0 < j.mu.readers) :
    j.add cmd args path hooks = .blocked := by
  have : j.mu.readers ≠ 0 := by omega
  simp [jobHandler.add, RWMutex.Lock, this]

theorem add_ok_id (j : jobHandler) (cmd : String) (args : List String) (path : String)
    (hooks : Published) (jb : job) (j1 : jobHandler) (hooks1 : Published)
    (h : j.add cmd args path hooks = .ok (jb, j1, hooks1)) :
    jb.id = wrapInt (j.latestID + 1) ∧ j1.latestID = wrapInt (j.latestID + 1) := by
  unfold jobHandler.add at h
  split at h
  · cases h
  · cases h
  · dsimp only at h
    split at h
    · cases h
    · cases h
    · cases h
      exact ⟨rfl, rfl⟩

theorem disown_ok_latestID (j : jobHandler) (id : Int) (err : Option String) (j1 : jobHandler)
    (h : j.disown id = .ok (err, j1)) : j1.latestID = j.latestID := by
  unfold jobHandler.disown at h
  split at h
  · cases h
  · cases h
  · split at h
    · cases h; rfl
    · split at h
      · cases h
      · cases h
      · split at h
        · cases h
        · cases h
        · dsimp only at h
          split at h
          · cases h
          · cases h
          · cases h; rfl

theorem wrapInt_add (x y : Int) : wrapInt (wrapInt x + y) = wrapInt (x + y) := by
  unfold wrapInt
  have h : ((x + 9223372036854775808) % 18446744073709551616 - 9223372036854775808 + y +
      9223372036854775808) % 18446744073709551616 =
      (x + y + 9223372036854775808) % 18446744073709551616 := by
    have e1 : (x + 9223372036854775808) % 18446744073709551616 - 9223372036854775808 + y +
        9223372036854775808 = (x + 9223372036854775808) % 18446744073709551616 + y := by ring
    have e2 : x + y + 9223372036854775808 = x + 9223372036854775808 + y := by ring
    rw [e1, e2, Int.emod_add_emod]
  rw [h]

theorem wrapInt_small (x : Int) (h1 : -9223372036854775808 ≤ x) (h2 : x < 9223372036854775808) :
    wrapInt x = x := by
  unfold wrapInt
  rw [Int.emod_eq_of_lt (by omega) (by omega)]
  omega

/-- The counter at the largest `int`: the next id is the smallest one. -/
theorem wrapInt_max : wrapInt (9223372036854775807 + 1) = -9223372036854775808 := by
  decide

/-- Whatever the calls are, the `add` calls that return give the ids that
follow the counter, one after the other: the `k`-th of them gives the id
`latestID + 1 + k`, wrapped around as an `int`. -/
theorem added_ids_follow_counter : ∀ (calls : List JobCall) (j : jobHandler) (hooks : Published)
    (k : Nat) (id : Int), (addedIds (runJobCalls j hooks calls).1)[k]? = some id →
      id = wrapInt (j.latestID + 1 + (k : Int)) := by
  intro calls
  induction calls with
  | nil => intro j hooks k id h; simp [runJobCalls, addedIds] at h
  | cons c calls ih =>
    intro j hooks k id h
    cases c with
    | add cmd args path =>
      simp only [runJobCalls] at h
      split at h
      · rename_i jb j1 hooks1 hadd
        obtain ⟨hid, hlat⟩ := add_ok_id _ _ _ _ _ _ _ _ hadd
        have hcons : addedIds (JobReply.added jb.id :: (runJobCalls j1 hooks1 calls).1) =
            jb.id :: addedIds (runJobCalls j1 hooks1 calls).1 := rfl
        dsimp only at h
        rw [hcons] at h
        cases k with
        | zero =>
          simp only [List.getElem?_cons_zero, Option.some.injEq] at h
          rw [← h, hid]
          simp
        | succ k =>
          simp only [List.getElem?_cons_succ] at h
          have := ih j1 hooks1 k id h
          rw [this, hlat, Int.add_assoc (wrapInt (j.latestID + 1)), wrapInt_add]
          congr 1
          push_cast
          omega
      · simp [addedIds] at h
      · simp [addedIds] at h
    | disown id1 =>
      simp only [runJobCalls] at h
      split at h
      · rename_i err j1 hdis
        have hlat := disown_ok_latestID _ _ _ _ hdis
        have hcons : addedIds (JobReply.disowned err :: (runJobCalls j1 hooks calls).1) =
            addedIds (runJobCalls j1 hooks calls).1 := rfl
        dsimp only at h
        rw [hcons] at h
        rw [ih j1 hooks k id h, hlat]
      · simp [addedIds] at h
      · simp [addedIds] at h

/-! ### Runs that leave the contract -/

/-- C7. On a new table `disown(1)` returns "job doesnt exist" and keeps the
read lock; the `add` that follows waits for the write lock forever and
returns no job. -/
theorem C7_add_blocks_after_failed_disown :
    (runJobCalls newJobHandler [] [.disown 1, .add "ls" ["ls"] "/bin/ls"]).1 =
      [JobReply.disowned (some "job doesnt exist")] ∧
    (runJobCalls newJobHandler [] [.disown 1, .add "ls" ["ls"] "/bin/ls"]).2.1 =
      some Res.blocked := by
  constructor <;> decide

/-- C8. After `add` (job 1) and a `disown(2)` that returns "job doesnt exist",
the read lock is still held, so the table is not as it was; `disown(1)` then
waits for the write lock forever: it returns nothing and job 1 stays. -/
theorem C8_disown_leaks_read_lock :
    (runJobCalls newJobHandler [] [.add "ls" ["ls"] "/bin/ls", .disown 2]).1 =
      [JobReply.added 1, JobReply.disowned (some "job doesnt exist")] ∧
    (runJobCalls newJobHandler [] [.add "ls" ["ls"] "/bin/ls", .disown 2]).2.2.mu =
      { readers := 1, writer := false } ∧
    (runJobCalls newJobHandler [] [.add "ls" ["ls"] "/bin/ls", .disown 2, .disown 1]).2.1 =
      some Res.blocked ∧
    ((runJobCalls newJobHandler [] [.add "ls" ["ls"] "/bin/ls", .disown 2, .disown 1]).2.2.jobs
      1).isSome = true := by
  refine ⟨by decide, by decide, by decide, by decide⟩

/-- C9. For a job that is not running, whose handle has no process attached
(or is rebuilt by `start`), a failing launch makes `start` read the pid of a
nil process: `luaStartJob` panics, nothing is stored in `exitCode` and
`job.done` is not published. -/
theorem C9_failed_launch_panics (launch : Cmd → Except String Int) (bgProcAttr : Nat)
    (handleExecErr : Option String → Nat) (j : job) (hooks : Published)
    (hrun : j.running = false) (hproc : j.once = true ∨ j.getProc = none)
    (hfail : ∀ c, ∃ e, launch c = .error e) :
    luaStartJob launch bgProcAttr handleExecErr j hooks =
      .fault "invalid memory address or nil pointer dereference" := by
  have hstart : job.start launch bgProcAttr j hooks =
      .fault "invalid memory address or nil pointer dereference" := by
    rcases hh : j.handle with _ | h
    · obtain ⟨e, he⟩ := hfail
        { Path := j.path, Args := j.args,
          Stdout := some (.multi j.cmdout (.buffer "stdout")),
          Stderr := some (.multi j.cmderr (.buffer "stderr")),
          SysProcAttr := some bgProcAttr, Process := none }
      simp [job.start, job.setHandle, job.getProc, hh, he]
    · rcases ho : j.once with _ | _
      · have hp : h.Process = none := by
          rcases hproc with h1 | h1
          · simp [ho] at h1
          · simpa [job.getProc, hh] using h1
        obtain ⟨e, he⟩ := hfail
          { Path := h.Path, Args := h.Args,
            Stdout := some (.multi j.cmdout (.buffer "stdout")),
            Stderr := some (.multi j.cmderr (.buffer "stderr")),
            SysProcAttr := some bgProcAttr, Process := h.Process }
        rw [hp] at he
        simp [job.start, job.getProc, hh, ho, he, hp]
      · obtain ⟨e, he⟩ := hfail
          { Path := j.path, Args := j.args,
            Stdout := some (.multi j.cmdout (.buffer "stdout")),
            Stderr := some (.multi j.cmderr (.buffer "stderr")),
            SysProcAttr := some bgProcAttr, Process := none }
        simp [job.start, job.setHandle, job.getProc, hh, ho, he]
  simp [luaStartJob, hrun, hstart]

/-- C9, on the job `add "nope" ["nope"] "/nonexistent"` creates. -/
theorem C9_failed_launch_panics_witness :
    (match newJobHandler.add "nope" ["nope"] "/nonexistent" [] with
      | .ok (jb, _, hooks) => some (jb, hooks)
      | _ => none) = some (nopeJob, [("job.add", 1)]) ∧
    luaStartJob launchFails 7 exitOf nopeJob [("job.add", 1)] =
      .fault "invalid memory address or nil pointer dereference" :=
  ⟨by decide, C9_failed_launch_panics launchFails 7 exitOf nopeJob [("job.add", 1)] rfl
    (Or.inr rfl) (fun _ => ⟨_, rfl⟩)⟩

/-! ### The mutex across the calls -/

theorem add_keeps_lock (j : jobHandler) (cmd : String) (args : List String) (path : String)
    (hooks : Published) (jb : job) (j1 : jobHandler) (hooks1 : Published)
    (h : j.add cmd args path hooks = .ok (jb, j1, hooks1)) : j1.mu = j.mu := by
  unfold jobHandler.add at h
  cases hm : j.mu with
  | mk readers writer =>
    rw [hm] at h
    by_cases hfree : readers = 0 ∧ writer = false
    · obtain ⟨rfl, rfl⟩ := hfree
      simp [RWMutex.Lock, RWMutex.Unlock] at h
      rw [← h.2.1]
    · simp [RWMutex.Lock, hfree] at h

theorem getLatest_keeps_lock (j : jobHandler) (jb : Option job) (j1 : jobHandler)
    (h : j.getLatest = .ok (jb, j1)) : j1.mu = j.mu := by
  unfold jobHandler.getLatest at h
  cases hm : j.mu with
  | mk readers writer =>
    rw [hm] at h
    cases writer with
    | true => simp [RWMutex.RLock] at h
    | false =>
      simp [RWMutex.RLock, RWMutex.RUnlock] at h
      rw [← h.2]

/-- C12. On a table whose mutex is free, `disown` of an id that is not in the
table returns "job doesnt exist" with one read lock still held: the mutex is
not as `disown` found it, and every `add` after it waits for the write lock
forever. -/
theorem C12_disown_error_path_keeps_read_lock (j : jobHandler) (id : Int)
    (hmu : j.mu = { readers := 0, writer := false }) (hid : j.jobs id = none) :
    ∃ j1, j.disown id = .ok (some "job doesnt exist", j1) ∧
      j1.mu = { readers := 1, writer := false } ∧ j1.mu ≠ j.mu ∧
      ∀ cmd args path hooks, j1.add cmd args path hooks = .blocked := by
  have hw : j.mu.writer = false := by rw [hmu]
  refine ⟨_, disown_unknown j id hw hid, ?_, ?_, ?_⟩
  · simp [hmu]
  · simp [hmu]
  · intro cmd args path hooks
    exact add_blocked_of_reader _ cmd args path hooks (by simp)

/-- C12 on a new table: `disown(1)` leaves one read lock held and the `add`
after it never returns. -/
theorem C12_disown_error_path_keeps_read_lock_witness :
    newJobHandler.mu = { readers := 0, writer := false } ∧ newJobHandler.jobs 1 = none ∧
    ∃ j1, newJobHandler.disown 1 = .ok (some "job doesnt exist", j1) ∧
      j1.mu = { readers := 1, writer := false } ∧
      j1.add "ls" ["ls"] "/bin/ls" [] = .blocked := by
  obtain ⟨j1, h1, h2, -, h4⟩ :=
    C12_disown_error_path_keeps_read_lock newJobHandler 1 rfl rfl
  exact ⟨rfl, rfl, j1, h1, h2, h4 _ _ _ _⟩

/-! ## Timers: the running count -/

theorem running_set_true : ∀ (l : List timer) (i : Nat) (t t1 : timer),
    l[i]? = some t → t.running = false → t1.running = true →
    ((l.set i t1).filter (fun x => x.running)).length =
      (l.filter (fun x => x.running)).length + 1 := by
  intro l
  induction l with
  | nil => intro i t t1 h; simp at h
  | cons a l ih =>
    intro i t t1 h ht ht1
    cases i with
    | zero =>
      simp at h
      subst h
      simp [List.filter, ht, ht1]
    | succ i =>
      simp at h
      have := ih i t t1 h ht ht1
      simp only [List.set_cons_succ, List.filter_cons]
      split <;> simp [this]

theorem running_set_false : ∀ (l : List timer) (i : Nat) (t t1 : timer),
    l[i]? = some t → t.running = true → t1.running = false →
    ((l.set i t1).filter (fun x => x.running)).length + 1 =
      (l.filter (fun x => x.running)).length := by
  intro l
  induction l with
  | nil => intro i t t1 h; simp at h
  | cons a l ih =>
    intro i t t1 h ht ht1
    cases i with
    | zero =>
      simp at h
      subst h
      simp [List.filter, ht, ht1]
    | succ i =>
      simp at h
      have := ih i t t1 h ht ht1
      simp only [List.set_cons_succ, List.filter_cons]
      split <;> simp [← this]

theorem get_set_self (l : List timer) (i : Nat) (t t1 : timer) (h : l[i]? = some t) :
    (l.set i t1)[i]? = some t1 := by
  have hi : i < l.length := by
    by_contra hc
    rw [List.getElem?_eq_none (by omega)] at h
    cases h
  simp [List.getElem?_set, hi]


theorem start_running (w : Timers) (i : Nat) (t : timer) (h : w.timers[i]? = some t)
    (hr : t.running = true) :
    timer.start w i = (.returned (some "timer is already running"), w) := by
  simp [timer.start, h, hr]

theorem stop_idle (w : Timers) (i : Nat) (t : timer) (h : w.timers[i]? = some t)
    (hr : t.running = false) :
    timer.stop w i = (.returned (some "timer not running"), w) := by
  simp [timer.stop, h, hr]

theorem runningTimers_nonneg (w : Timers) : (0 : Int) ≤ (runningTimers w : Int) :=
  Int.ofNat_nonneg _

theorem start_idle (w : Timers) (i : Nat) (t : timer) (hinv : TimersInv w)
    (h : w.timers[i]? = some t) (hr : t.running = false) :
    timer.start w i =
      (if t.dur ≤ 0 then .fault "non-positive interval for NewTicker" else .returned none,
        { th := { running := w.th.running + 1, wg := w.th.wg + 1 },
          timers := w.timers.set i
            (if t.dur ≤ 0 then { t with running := true }
             else { t with running := true, ticker := true, parked := t.parked + 1 }) }) := by
  obtain ⟨-, hwg, -⟩ := hinv
  have hwg0 : ¬ (w.th.wg + 1 < 0) := by
    have := runningTimers_nonneg w
    omega
  by_cases hd : t.dur ≤ 0
  · simp [timer.start, h, hr, hwg0, hd]
  · simp [timer.start, h, hr, hwg0, hd]

theorem stop_running (w : Timers) (i : Nat) (t : timer) (hinv : TimersInv w)
    (h : w.timers[i]? = some t) (hr : t.running = true) :
    timer.stop w i =
      (.returned none,
        { th := { running := w.th.running - 1, wg := w.th.wg - 1 },
          timers := w.timers.set i
            { t with parked := t.parked - 1, ticker := false, running := false } }) := by
  obtain ⟨-, hwg, hpark⟩ := hinv
  have hmem : t ∈ w.timers := List.getElem?_mem h
  have hp : 0 < t.parked := hpark t hmem hr
  have hcount := running_set_false w.timers i t { t with running := false } h hr rfl
  have hwg0 : ¬ (w.th.wg - 1 < 0) := by
    have : runningTimers w = (w.timers.filter (fun x => x.running)).length := rfl
    omega
  simp [timer.stop, timer.send, h, hr, hp, hwg0]

theorem timersInv_init (ts : List timer) (hfresh : ∀ t ∈ ts, t.fresh) :
    TimersInv (Timers.init ts) := by
  have hnone : ts.filter (fun x => x.running) = [] := by
    rw [List.filter_eq_nil_iff]
    intro t ht
    simp [(hfresh t ht).1]
  refine ⟨?_, ?_, ?_⟩
  · simp [Timers.init, runningTimers, hnone]
  · simp [Timers.init, runningTimers, hnone]
  · intro t ht hr
    have := (hfresh t ht).1
    simp [Timers.init] at ht
    rw [(hfresh t ht).1] at hr
    cases hr

theorem timersInv_call (w w1 : Timers) (c : TimerCall) (err : Option String)
    (hinv : TimersInv w) (h : timerCall w c = (Outcome.returned err, w1)) : TimersInv w1 := by
  cases c with
  | start i =>
    simp only [timerCall] at h
    cases ht : w.timers[i]? with
    | none => simp [timer.start, ht] at h
    | some t =>
      cases hr : t.running with
      | true =>
        rw [start_running w i t ht hr] at h
        cases h
        exact hinv
      | false =>
        rw [start_idle w i t hinv ht hr] at h
        by_cases hd : t.dur ≤ 0
        · simp [hd] at h
        · simp only [hd, if_false, Prod.mk.injEq] at h
          obtain ⟨-, rfl⟩ := h
          obtain ⟨hrun, hwg, hpark⟩ := hinv
          have hcount := running_set_true w.timers i t
            { t with running := true, ticker := true, parked := t.parked + 1 } ht hr rfl
          refine ⟨?_, ?_, ?_⟩
          · simp only [runningTimers] at hrun ⊢
            rw [hcount, hrun]
            push_cast
            rfl
          · simp only [runningTimers] at hwg ⊢
            rw [hcount, hwg]
            push_cast
            rfl
          · intro x hx hxr
            rcases List.mem_or_eq_of_mem_set hx with hx | rfl
            · exact hpark x hx hxr
            · simp
  | stop i =>
    simp only [timerCall] at h
    cases ht : w.timers[i]? with
    | none => simp [timer.stop, ht] at h
    | some t =>
      cases hr : t.running with
      | false =>
        rw [stop_idle w i t ht hr] at h
        cases h
        exact hinv
      | true =>
        rw [stop_running w i t hinv ht hr] at h
        simp only [Prod.mk.injEq] at h
        obtain ⟨-, rfl⟩ := h
        obtain ⟨hrun, hwg, hpark⟩ := hinv
        have hcount := running_set_false w.timers i t
          { t with parked := t.parked - 1, ticker := false, running := false } ht hr rfl
        refine ⟨?_, ?_, ?_⟩
        · simp only [runningTimers] at hrun ⊢
          rw [hrun, ← hcount]
          push_cast
          omega
        · simp only [runningTimers] at hwg ⊢
          rw [hwg, ← hcount]
          push_cast
          omega
        · intro x hx hxr
          rcases List.mem_or_eq_of_mem_set hx with hx | rfl
          · exact hpark x hx hxr
          · simp at hxr

theorem timersInv_reach (ts : List timer) (hfresh : ∀ t ∈ ts, t.fresh) (w : Timers)
    (hw : TimersReach (Timers.init ts) w) : TimersInv w := by
  induction hw with
  | init => exact timersInv_init ts hfresh
  | call w c err w1 _ hcall ih => exact timersInv_call w w1 c err ih hcall

/-- C10. Take timers that have not been started, under one handler that has
counted nothing, and any state `w` that `start` and `stop` calls lead to.
Then the handler's count equals the number of timers whose `running` flag is
set, and is not negative. For every timer `t` at index `i`:
`start` returns "timer is already running" exactly when `t` is running, and
then changes nothing; otherwise it sets the flag, raises the count by one,
leaves the other timers alone, keeps the count equal to the number of running
timers, and returns nil when the duration is positive.
`stop` returns "timer not running" exactly when `t` is not running, and then
changes nothing; otherwise it returns nil, clears the flag, lowers the count
by one, leaves the other timers alone and keeps the count equal to the number
of running timers. -/
theorem C10_running_count_matches_flags (ts : List timer) (hfresh : ∀ t ∈ ts, t.fresh)
    (w : Timers) (hw : TimersReach (Timers.init ts) w) :
    (w.th.running = (runningTimers w : Int) ∧ 0 ≤ w.th.running) ∧
    ∀ (i : Nat) (t : timer), w.timers[i]? = some t →
      ((timer.start w i).1 = .returned (some "timer is already running") ↔ t.running = true) ∧
      (t.running = true → (timer.start w i).2 = w) ∧
      (t.running = false →
        ((timer.start w i).2.timers[i]?).map (fun x => x.running) = some true ∧
        (timer.start w i).2.th.running = w.th.running + 1 ∧
        (∀ j, j ≠ i → (timer.start w i).2.timers[j]? = w.timers[j]?) ∧
        (timer.start w i).2.th.running = (runningTimers (timer.start w i).2 : Int) ∧
        (0 < t.dur → (timer.start w i).1 = .returned none)) ∧
      ((timer.stop w i).1 = .returned (some "timer not running") ↔ t.running = false) ∧
      (t.running = false → (timer.stop w i).2 = w) ∧
      (t.running = true →
        (timer.stop w i).1 = .returned none ∧
        ((timer.stop w i).2.timers[i]?).map (fun x => x.running) = some false ∧
        (timer.stop w i).2.th.running = w.th.running - 1 ∧
        (∀ j, j ≠ i → (timer.stop w i).2.timers[j]? = w.timers[j]?) ∧
        (timer.stop w i).2.th.running = (runningTimers (timer.stop w i).2 : Int)) := by
  have hinv := timersInv_reach ts hfresh w hw
  refine ⟨⟨hinv.1, ?_⟩, ?_⟩
  · rw [hinv.1]
    exact runningTimers_nonneg w
  intro i t ht
  cases hr : t.running with
  | true =>
    have hstart := start_running w i t ht hr
    have hstop := stop_running w i t hinv ht hr
    have hcount := running_set_false w.timers i t
      { t with parked := t.parked - 1, ticker := false, running := false } ht hr rfl
    refine ⟨by simp [hstart], fun _ => (by rw [hstart]), fun h => (by cases h),
      by simp [hstop], fun h => (by cases h), fun _ => ?_⟩
    rw [hstop]
    refine ⟨rfl, ?_, rfl, ?_, ?_⟩
    · simp [get_set_self w.timers i t _ ht]
    · intro j hj
      simp [List.getElem?_set_ne (Ne.symm hj)]
    · have h1 := hinv.1
      simp only [runningTimers] at h1 ⊢
      rw [h1, ← hcount]
      push_cast
      omega
  | false =>
    have hstart := start_idle w i t hinv ht hr
    have hstop := stop_idle w i t ht hr
    refine ⟨?_, fun h => (by cases h), fun _ => ?_, by simp [hstop], fun _ => (by rw [hstop]),
      fun h => (by cases h)⟩
    · rw [hstart]
      by_cases hd : t.dur ≤ 0 <;> simp [hd]
    · rw [hstart]
      refine ⟨?_, rfl, ?_, ?_, ?_⟩
      · by_cases hd : t.dur ≤ 0 <;> simp [hd, get_set_self w.timers i t _ ht]
      · intro j hj
        simp [List.getElem?_set_ne (Ne.symm hj)]
      · have h1 := hinv.1
        have hcount : ∀ t1 : timer, t1.running = true →
            ((w.timers.set i t1).filter (fun x => x.running)).length =
              (w.timers.filter (fun x => x.running)).length + 1 :=
          fun t1 h => running_set_true w.timers i t t1 ht hr h
        simp only [runningTimers] at h1 ⊢
        by_cases hd : t.dur ≤ 0
        · simp only [hd, if_true]
          rw [hcount _ rfl, h1]
          push_cast
          rfl
        · simp only [hd, if_false]
          rw [hcount _ rfl, h1]
          push_cast
          rfl
      · intro hd
        have hd1 : ¬ t.dur ≤ 0 := by omega
        simp [hd1]

/-- C10 on an interval timer and a timeout timer after `start` on both and
`stop` on the first: the count is 1, as is the number of running timers. -/
theorem C10_running_count_matches_flags_witness :
    (∀ t ∈ twoTimers, t.fresh) ∧
    TimersReach (Timers.init twoTimers) afterStartStartStop ∧
    afterStartStartStop.th.running = 1 ∧
    (afterStartStartStop.th.running = (runningTimers afterStartStartStop : Int) ∧
      0 ≤ afterStartStartStop.th.running) := by
  have hfresh : ∀ t ∈ twoTimers, t.fresh := by
    intro t ht
    simp only [twoTimers, List.mem_cons, List.mem_singleton, List.not_mem_nil, or_false] at ht
    rcases ht with rfl | rfl <;> exact ⟨rfl, rfl, rfl⟩
  have hreach : TimersReach (Timers.init twoTimers) afterStartStartStop :=
    TimersReach.call afterStartStart (.stop 0) none afterStartStartStop
      (TimersReach.call afterStart (.start 1) none afterStartStart
        (TimersReach.call (Timers.init twoTimers) (.start 0) none afterStart TimersReach.init
          (by decide))
        (by decide))
      (by decide)
  exact ⟨hfresh, hreach, by decide,
    (C10_running_count_matches_flags twoTimers hfresh afterStartStartStop hreach).1⟩

/-! ## Timers: the goroutine of a timeout timer -/

theorem started_alone (tm : timer) (hfresh : tm.fresh) (hdur : 0 < tm.dur) :
    startedAlone tm =
      { w := { th := { running := 1, wg := 1 },
               timers := [{ tm with running := true, ticker := true, parked := 1 }] },
        tick := false, fired := 0, stuck := 0, crashed := none } := by
  obtain ⟨hr, hp, -⟩ := hfresh
  have hd : ¬ tm.dur ≤ 0 := by omega
  simp [startedAlone, timer.start, Timers.init, hr, hp, hd]

/-- With a channel that has room for a signal, the first tick of a timeout
timer calls the callback once and the timer stops itself, whether the
callback returned an error (two `stop` calls) or not (one): the flag is
cleared, the count is back at 0, the signal waits in the channel, nobody is
stuck. -/
theorem first_tick_stops_one_shot (tm : timer) (cb : Nat → Option String)
    (htyp : tm.typ = .timerTimeout) (hfresh : tm.fresh) (hdur : 0 < tm.dur)
    (hcap : 0 < tm.chanCap) :
    runTimer cb 0 (startedAlone tm) [.tick, .fire] =
      some { w := { th := { running := 0, wg := 0 },
                    timers := [{ tm with running := false, ticker := true, parked := 1,
                                         channel := 1 }] },
             tick := false, fired := 1, stuck := 0, crashed := none } := by
  rw [started_alone tm hfresh hdur]
  obtain ⟨-, -, hc⟩ := hfresh
  cases hcb : cb 0 with
  | none =>
    simp [runTimer, timerStep, timer.stop, timer.send, htyp, hc, hcap, hcb]
  | some e =>
    simp [runTimer, timerStep, timer.stop, timer.send, htyp, hc, hcap, hcb]

theorem runTimer_append (cb : Nat → Option String) (t : Nat) :
    ∀ (es fs : List TimerEvent) (r : TimerRun),
      runTimer cb t r (es ++ fs) = (runTimer cb t r es).bind (fun r1 => runTimer cb t r1 fs) := by
  intro es
  induction es with
  | nil => intro fs r; rfl
  | cons e es ih =>
    intro fs r
    simp only [List.cons_append, runTimer]
    cases timerStep cb t r e with
    | none => rfl
    | some r1 => exact ih fs r1

/-- Once the goroutine has taken the signal, the ticker is stopped and the
goroutine is gone: no further event can happen, so the callback is not called
again. -/
theorem cancel_ends_one_shot (tm : timer) (cb : Nat → Option String)
    (htyp : tm.typ = .timerTimeout) (hfresh : tm.fresh) (hdur : 0 < tm.dur)
    (hcap : 0 < tm.chanCap) :
    ∃ r, runTimer cb 0 (startedAlone tm) [.tick, .fire, .cancel] = some r ∧ r.fired = 1 ∧
      ∀ e, timerStep cb 0 r e = none := by
  have h := first_tick_stops_one_shot tm cb htyp hfresh hdur hcap
  have happ := runTimer_append cb 0 [.tick, .fire] [.cancel] (startedAlone tm)
  rw [h] at happ
  simp only [List.cons_append, List.nil_append, Option.bind_some] at happ
  rw [happ]
  refine ⟨{ w := { th := { running := 0, wg := 0 },
                   timers := [{ tm with running := false, ticker := false, parked := 0,
                                        channel := 0 }] },
            tick := false, fired := 1, stuck := 0, crashed := none }, ?_, rfl, ?_⟩
  · simp [runTimer, timerStep]
  · intro e
    cases e <;> simp [timerStep]

/-- C11. Take a timeout timer that has been started, alone under its handler,
and any callback. When its channel has no buffer, the first tick calls the
callback and the goroutine then waits forever in the send of its own
`stop`: the timer stays running and the count stays 1. When the channel has
room, the first tick stops the timer, but the ticker runs on until the
goroutine takes the signal; a tick that has arrived by then can be taken
first by the `select`, and the callback is called a second time. -/
theorem C11_one_shot_hangs_or_fires_twice (tm : timer) (cb : Nat → Option String)
    (htyp : tm.typ = .timerTimeout) (hfresh : tm.fresh) (hdur : 0 < tm.dur) :
    (tm.chanCap = 0 →
      runTimer cb 0 (startedAlone tm) [.tick, .fire] =
        some { w := { th := { running := 1, wg := 1 },
                      timers := [{ tm with running := true, ticker := true, parked := 0 }] },
               tick := false, fired := 1, stuck := 1, crashed := none }) ∧
    (0 < tm.chanCap →
      runTimer cb 0 (startedAlone tm) [.tick, .fire, .tick, .fire] =
        some { w := { th := { running := 0, wg := 0 },
                      timers := [{ tm with running := false, ticker := true, parked := 1,
                                           channel := 1 }] },
               tick := false, fired := 2, stuck := 0, crashed := none }) := by
  constructor
  · intro hcap
    rw [started_alone tm hfresh hdur]
    obtain ⟨-, -, hc⟩ := hfresh
    cases hcb : cb 0 with
    | none => simp [runTimer, timerStep, timer.stop, timer.send, htyp, hc, hcap, hcb]
    | some e => simp [runTimer, timerStep, timer.stop, timer.send, htyp, hc, hcap, hcb]
  · intro hcap
    have h := first_tick_stops_one_shot tm cb htyp hfresh hdur hcap
    have happ := runTimer_append cb 0 [.tick, .fire] [.tick, .fire] (startedAlone tm)
    rw [h] at happ
    simp only [List.cons_append, List.nil_append, Option.bind_some] at happ
    rw [happ]
    cases hcb : cb 1 with
    | none => simp [runTimer, timerStep, timer.stop, htyp, hcb]
    | some e => simp [runTimer, timerStep, timer.stop, htyp, hcb]

/-- C11 on a timeout timer of 50. With a channel of capacity 1 and a quiet
callback, a second tick before the goroutine takes the signal leads to a
second call; without a buffer and with a failing callback, the goroutine
hangs in `stop` after the first call and the timer stays running. -/
theorem C11_one_shot_hangs_or_fires_twice_witness :
    (runTimer quietCallback 0 (startedAlone oneShot) [.tick, .fire, .tick, .fire]).map
        (fun r => (r.fired, r.w.th.running, r.w.timers.map (fun t => t.running))) =
      some (2, 0, [false]) ∧
    (runTimer failingCallback 0 (startedAlone oneShotUnbuffered) [.tick, .fire]).map
        (fun r => (r.fired, r.stuck, r.w.th.running, r.w.timers.map (fun t => t.running))) =
      some (1, 1, 1, [true]) := by
  have h1 := (C11_one_shot_hangs_or_fires_twice oneShot quietCallback rfl ⟨rfl, rfl, rfl⟩
    (by decide)).2 (by decide)
  have h2 := (C11_one_shot_hangs_or_fires_twice oneShotUnbuffered failingCallback rfl
    ⟨rfl, rfl, rfl⟩ (by decide)).1 rfl
  rw [h1, h2]
  exact ⟨rfl, rfl⟩


end Hilbish
